import Mathlib

/-!
A shallow embedding of the event-list generation stage of the laboneq compiler
(`src/laboneq/compiler/event_list/event_list_generator.py`) and of the
branch-timing resolution helpers (`src/laboneq/compiler/new_scheduler/match_schedule.py`),
together with proofs about the properties the specification asserts.

Modelling conventions:
* Python string identifiers (section names, signal ids, parameter uids, handles)
  are modelled as `Nat` tags; none of the verified properties depends on their
  actual text.
* Python integers are `Int` (times, lengths, budgets) or `Nat` (ids, counters,
  iteration counts).
* An emitted event dict is modelled as the record `Event`.  Only the keys that
  the verified properties mention are modelled (`event_type`, `time`, `id`,
  `chain_element_id`, `shadow`, `nesting_level`, `iterations`, `compressed`,
  `state`); pure-payload keys (`section_name`, `signal`, `amplitude`,
  `play_wave_id`, `parametrized_with`, marker/oscillator/pulse-parameter data,
  `handle`, `local`, `bit`, `value`, ...) are carried by the Python dicts but
  never inspected by the generator logic, so they are omitted from the record.
  A key that may be absent from the dict is an `Option` field (`none` = absent).
* The shared ID allocator (`id_tracker`, a strictly increasing iterator) is
  modelled by threading a `Nat` counter: drawing `next(id_tracker)` returns the
  counter and increments it.  The `settings: CompilerSettings` argument is
  never read by any of the embedded functions and is dropped.
* The recursion of `generate_event_list` over the tree is rendered
  structurally: every Python function that recurses through the dispatcher
  takes the dispatcher as an explicit parameter `genf`, and the dispatcher
  itself is defined by structural recursion on a depth counter that the
  top-level entry point instantiates with the node count `irSize` of the tree — a strict
  over-approximation of the recursion depth, so the depth-exhausted branch is
  unreachable (the result does not depend on the counter once it is at least
  `irSize` of the tree).
-/

/-- The closed enumeration of event types emitted by the generator
(`EventType` in the source, restricted to the emitted members). -/
inductive EventType where
  | SECTION_START
  | SECTION_END
  | SUBSECTION_START
  | SUBSECTION_END
  | LOOP_START
  | LOOP_END
  | LOOP_STEP_START
  | LOOP_STEP_END
  | LOOP_ITERATION_END
  | PARAMETER_SET
  | PLAY_START
  | PLAY_END
  | DELAY_START
  | DELAY_END
  | ACQUIRE_START
  | ACQUIRE_END
  | DIGITAL_SIGNAL_STATE_CHANGE
  | PRNG_SETUP
  | DROP_PRNG_SETUP
  | DRAW_PRNG_SAMPLE
  | DROP_PRNG_SAMPLE
  | SET_OSCILLATOR_FREQUENCY_START
  | SET_OSCILLATOR_FREQUENCY_END
  | RESET_HW_OSCILLATOR_PHASE
  | RESET_SW_OSCILLATOR_PHASE
  | RESET_PRECOMPENSATION_FILTERS
deriving DecidableEq, Repr

/-- An emitted event record (a Python dict in the source); see the module
comment for which keys are modelled.  `shadow` is `false` when the key is
absent (the generator only ever sets it to `True`). -/
structure Event where
  event_type : EventType
  time : Int
  id : Option Nat := none
  chain_element_id : Option Nat := none
  nesting_level : Option Int := none
  shadow : Bool := false
  iterations : Option Nat := none
  compressed : Option Bool := none
  state : Option Int := none
deriving DecidableEq, Repr

/-- The IR tree consumed by the generator (the `IntervalIR` hierarchy of
`laboneq.compiler.ir`).  Every node kind registered with
`generate_event_list` is a constructor; each carries exactly the fields the
generator reads.  `children` and `children_start` are the two parallel lists
of `IntervalIR` (`iter_children` zips them).  `EmptyBranchIR` nodes reach the
generator with no children, no trigger outputs and no PRNG setup (the
generator asserts this), so those fields are not carried.
Payload-only fields (amplitudes, phases, oscillator data, markers, parameter
values, ...) are omitted; for `OscillatorFrequencyStepIR` the three zipped
lists are kept as lists of opaque tags so that the emitted event count is
faithful. -/
inductive IR where
  | RootScheduleIR (length : Int) (children_start : List Int) (children : List IR)
  | SectionIR (sectionName : Nat) (length : Int)
      (trigger_output : List (Nat × Nat)) (prng_setup : Option (Int × Int))
      (children_start : List Int) (children : List IR)
  | MatchIR (sectionName : Nat) (length : Int)
      (trigger_output : List (Nat × Nat)) (prng_setup : Option (Int × Int))
      (handle : Option Nat) (localFlag : Bool) (user_register : Option Int)
      (prng_sample : Option Nat)
      (children_start : List Int) (children : List IR)
  | CaseIR (sectionName : Nat) (length : Int)
      (trigger_output : List (Nat × Nat)) (prng_setup : Option (Int × Int))
      (state : Int)
      (children_start : List Int) (children : List IR)
  | EmptyBranchIR (sectionName : Nat) (length : Int) (state : Int)
      (signals : List Nat)
  | LoopIR (sectionName : Nat) (length : Int) (compressed : Bool)
      (iterations : Nat) (children_start : List Int) (children : List IR)
  | LoopIterationIR (sectionName : Nat) (length : Int) (iteration : Nat)
      (num_repeats : Nat) (sweep_parameters : List Nat)
      (prng_sample : Option Nat) (shadow : Bool)
      (children_start : List Int) (children : List IR)
  | PulseIR (sectionName : Nat) (length : Int) (offset : Int)
      (has_pulse : Bool) (is_acquire : Bool)
  | AcquireGroupIR (sectionName : Nat) (length : Int) (offset : Int)
  | OscillatorFrequencyStepIR (sectionName : Nat) (length : Int)
      (params : List Nat) (oscillators : List Nat) (values : List Int)
      (iteration : Nat)
  | PhaseResetIR (sectionName : Nat) (length : Int)
      (hw_osc_devices : List (Nat × Int)) (reset_sw_oscillators : Bool)
  | PrecompClearIR (length : Int)
  | ReserveIR (length : Int)

/-- Modelled from the spec and the repository's IR class hierarchy (the
`laboneq/compiler/ir/*.py` class definitions are outside the provided
sources): `MatchIR`, `CaseIR` (and `EmptyBranchIR`) are Section
specializations — the spec calls Match "a Section specialization" and Case
"wraps Section emission", and `generate_event_list_match` /
`generate_event_list_case` pass those nodes directly to
`generate_event_list_section` — and `LoopIR` / `LoopIterationIR` also derive
from `SectionIR` (their emission is SECTION_START/END-bracketed, §4.2).
This is the `isinstance(·, SectionIR)` test used by `_children_events`. -/
def isSectionIR : IR → Bool
  | .SectionIR .. => true
  | .MatchIR .. => true
  | .CaseIR .. => true
  | .EmptyBranchIR .. => true
  | .LoopIR .. => true
  | .LoopIterationIR .. => true
  | _ => false

/-- The `length` field shared by every `IntervalIR` node (resolved, hence
total here; the generator asserts `length is not None`). -/
def irLength : IR → Int
  | .RootScheduleIR len _ _ => len
  | .SectionIR _ len _ _ _ _ => len
  | .MatchIR _ len _ _ _ _ _ _ _ _ => len
  | .CaseIR _ len _ _ _ _ _ => len
  | .EmptyBranchIR _ len _ _ => len
  | .LoopIR _ len _ _ _ _ => len
  | .LoopIterationIR _ len _ _ _ _ _ _ _ => len
  | .PulseIR _ len _ _ _ => len
  | .AcquireGroupIR _ len _ => len
  | .OscillatorFrequencyStepIR _ len _ _ _ _ => len
  | .PhaseResetIR _ len _ _ => len
  | .PrecompClearIR len => len
  | .ReserveIR len => len

/-- The `children` list of a node ([] for leaf kinds). -/
def irChildren : IR → List IR
  | .RootScheduleIR _ _ ch => ch
  | .SectionIR _ _ _ _ _ ch => ch
  | .MatchIR _ _ _ _ _ _ _ _ _ ch => ch
  | .CaseIR _ _ _ _ _ _ ch => ch
  | .LoopIR _ _ _ _ _ ch => ch
  | .LoopIterationIR _ _ _ _ _ _ _ _ ch => ch
  | _ => []

/-- The offset constraint of a node: a pulse or acquire-group start offset
never exceeds the node length (`True` for other kinds). -/
def irOffsetOK : IR → Prop
  | .PulseIR _ len off _ _ => off ≤ len
  | .AcquireGroupIR _ len off => off ≤ len
  | _ => True

mutual

/-- Number of nodes of an IR tree; strictly exceeds its nesting depth.  Used
as the recursion-depth bound of the top-level dispatcher. -/
def irSize : IR → Nat
  | .RootScheduleIR _ _ ch => 1 + irSizeList ch
  | .SectionIR _ _ _ _ _ ch => 1 + irSizeList ch
  | .MatchIR _ _ _ _ _ _ _ _ _ ch => 1 + irSizeList ch
  | .CaseIR _ _ _ _ _ _ ch => 1 + irSizeList ch
  | .LoopIR _ _ _ _ _ ch => 1 + irSizeList ch
  | .LoopIterationIR _ _ _ _ _ _ _ _ ch => 1 + irSizeList ch
  | _ => 1

/-- Total node count of a list of IR trees. -/
def irSizeList : List IR → Nat
  | [] => 0
  | c :: rest => irSize c + irSizeList rest

end

/-- Input well-formedness of an IR tree, as guaranteed by the external
scheduler: every node's resolved `length` is non-negative, pulse offsets do
not exceed the node length, and all children are well-formed. -/
inductive WFIR : IR → Prop where
  | mk (ir : IR) : 0 ≤ irLength ir → irOffsetOK ir →
      (∀ c ∈ irChildren ir, WFIR c) → WFIR ir

/-- The trigger loop of `generate_event_list_section` (lines 54-74): builds
the `trigger_set_events` and `trigger_clear_events` lists, consuming 2 budget
units per trigger line and stopping when fewer than 2 remain.  Trigger events
draw no ids. -/
def triggerEvents (tr : List (Nat × Nat)) (start len : Int) (m : Int) :
    List Event × List Event × Int :=
  match tr with
  | [] => ([], [], m)
  | _ :: rest =>
    if m < 2 then ([], [], m)
    else
      let (setEvs, clearEvs, m') := triggerEvents rest start len (m - 2)
      ({ event_type := .DIGITAL_SIGNAL_STATE_CHANGE, time := start } :: setEvs,
       { event_type := .DIGITAL_SIGNAL_STATE_CHANGE, time := start + len } :: clearEvs,
       m')

/-- The PRNG_SETUP / DROP_PRNG_SETUP emission of
`generate_event_list_section` (lines 76-96): if the section owns a PRNG
setup and budget remains, draw two ids and charge 2.  Returns the setup
events, drop events, remaining budget and advanced counter. -/
def prngSetupEvents (prng_setup : Option (Int × Int)) (start len : Int)
    (m : Int) (c : Nat) : List Event × List Event × Int × Nat :=
  match prng_setup with
  | some _ =>
    if m > 0 then
      ([{ event_type := .PRNG_SETUP, time := start, id := some c }],
       [{ event_type := .DROP_PRNG_SETUP, time := start + len,
          id := some (c + 1) }], m - 2, c + 2)
    else ([], [], m, c)
  | none => ([], [], m, c)

/-- The DRAW_PRNG_SAMPLE emission of `generate_event_list_loop_iteration`
(lines 489-498); draws no ids. -/
def prngSampleDrawEvents (prng_sample : Option Nat) (start : Int) : List Event :=
  match prng_sample with
  | some _ => [{ event_type := .DRAW_PRNG_SAMPLE, time := start,
                 nesting_level := some 0 }]
  | none => []

/-- The DROP_PRNG_SAMPLE emission of `generate_event_list_loop_iteration`
(lines 499-506); draws no ids. -/
def prngSampleDropEvents (prng_sample : Option Nat) (endTime : Int) : List Event :=
  match prng_sample with
  | some _ => [{ event_type := .DROP_PRNG_SAMPLE, time := endTime,
                 nesting_level := some 0 }]
  | none => []

/-- The SUBSECTION wrapping pass of `_children_events` (lines 765-788): every
`SectionIR`-typed child has its (possibly empty) event sublist wrapped in a
SUBSECTION_START / SUBSECTION_END pair carrying a fresh chain id. -/
def wrapSlots (children : List IR) (starts : List Int)
    (slots : List (List Event)) (start : Int) (c : Nat) :
    List (List Event) × Nat :=
  match children, slots with
  | ch :: chs, sl :: sls =>
    let st := starts.headD 0
    let sts := starts.tail
    if isSectionIR ch then
      let wrapped :=
        { event_type := .SUBSECTION_START, time := st + start,
          id := some c, chain_element_id := some c } ::
        sl ++
        [{ event_type := .SUBSECTION_END, time := st + irLength ch + start,
           id := some (c + 1), chain_element_id := some c }]
      let (rest, c') := wrapSlots chs sts sls start (c + 2)
      (wrapped :: rest, c')
    else
      let (rest, c') := wrapSlots chs sts sls start c
      (sl :: rest, c')
  | _, _ => (slots, c)

/-- The wrapper events alone of the `wrapSlots` pass, in allocation order:
one SUBSECTION_START/END pair per `SectionIR`-typed child.  (Proof-side
companion of `wrapSlots`: the wrapped output is a permutation of the
un-wrapped slots plus this block.) -/
def wrapPairs (children : List IR) (starts : List Int)
    (slots : List (List Event)) (start : Int) (c : Nat) : List Event :=
  match children, slots with
  | ch :: chs, _ :: sls =>
    let st := starts.headD 0
    let sts := starts.tail
    if isSectionIR ch then
      { event_type := .SUBSECTION_START, time := st + start,
        id := some c, chain_element_id := some c } ::
      { event_type := .SUBSECTION_END, time := st + irLength ch + start,
        id := some (c + 1), chain_element_id := some c } ::
      wrapPairs chs sts sls start (c + 2)
    else wrapPairs chs sts sls start c
  | _, _ => []

/-- The per-signal DELAY emission loop of `generate_event_list_empty_branch`
(lines 430-455): one DELAY_START/END pair per signal spanning
`[start, start+length)`, stopping once the remaining budget is `<= 2`. -/
def emptyBranchDelays (signals : List Nat) (start len : Int) (m : Int) (c : Nat) :
    List Event × Nat :=
  match signals with
  | [] => ([], c)
  | _ :: rest =>
    if m ≤ 2 then ([], c)
    else
      let (evs, c') := emptyBranchDelays rest start len (m - 2) (c + 2)
      ({ event_type := .DELAY_START, time := start, id := some c,
         chain_element_id := some c } ::
       { event_type := .DELAY_END, time := start + len, id := some (c + 1),
         chain_element_id := some c } :: evs, c')

/-- The emission loop of `generate_event_list_oscillator_frequency_step`
(lines 223-249): one SET_OSCILLATOR_FREQUENCY_START/END pair per zipped
(parameter, oscillator, value) triple. -/
def oscStepEvents (steps : List ((Nat × Nat) × Int)) (start len : Int) (c : Nat) :
    List Event × Nat :=
  match steps with
  | [] => ([], c)
  | _ :: rest =>
    let (evs, c') := oscStepEvents rest start len (c + 2)
    ({ event_type := .SET_OSCILLATOR_FREQUENCY_START, time := start,
       id := some c, chain_element_id := some c } ::
     { event_type := .SET_OSCILLATOR_FREQUENCY_END, time := start + len,
       id := some (c + 1), chain_element_id := some c } :: evs, c')

/-- The RESET_HW_OSCILLATOR_PHASE comprehension of
`generate_event_list_phase_reset` (lines 695-705). -/
def hwPhaseResetEvents (devices : List (Nat × Int)) (start : Int) (c : Nat) :
    List Event × Nat :=
  match devices with
  | [] => ([], c)
  | _ :: rest =>
    let (evs, c') := hwPhaseResetEvents rest start (c + 1)
    ({ event_type := .RESET_HW_OSCILLATOR_PHASE, time := start,
       id := some c } :: evs, c')

/-- The PARAMETER_SET comprehension of `generate_event_list_loop_iteration`
(lines 510-520); these events draw no ids. -/
def parameterSetEvents (sweeps : List Nat) (start : Int) : List Event :=
  sweeps.map (fun _ => { event_type := .PARAMETER_SET, time := start })

/-- `children_events[0][-1]["compressed"] = True` (line 307): set the
`compressed` key on the last event of the prototype iteration's list. -/
def setLastCompressed : List Event → List Event
  | [] => []
  | [e] => [{ e with compressed := some true }]
  | e :: rest => e :: setLastCompressed rest

/-- The nesting-level bump applied by `generate_event_list_loop` to every
child event that carries a `nesting_level` key (lines 330-335). -/
def bumpNesting (e : Event) : Event :=
  match e.nesting_level with
  | some n => { e with nesting_level := some (n + 1) }
  | none => e

/-- `generate_event_list_case`'s `e["state"] = case_ir.state` tagging
(lines 400-401). -/
def setState (st : Int) (e : Event) : Event := { e with state := some st }

/-- `generate_event_list_loop_iteration`'s shadow tagging
(lines 532-534). -/
def setShadow (e : Event) : Event := { e with shadow := true }

/-- The type of the recursive dispatcher `generate_event_list`, passed
explicitly (as `genf`) to every helper that recurses through it:
node, start, max_events, id counter, expand_loops ↦ events × new counter. -/
def GenFun : Type := IR → Int → Int → Nat → Bool → List Event × Nat

/-- The child-visiting loop of `_children_events` (lines 741-755): visit
children in `iter_children()` (zip) order while budget remains, subtracting
each child's emitted event count. -/
def childrenVisitGo (genf : GenFun) :
    List IR → List Int → Int → Int → Nat → Bool → List (List Event) × Nat
  | child :: chs, st :: sts, start, max_events, c, x =>
    if max_events ≤ 0 then ([], c)
    else
      let (evs, c') := genf child (start + st) max_events c x
      let (rest, c'') := childrenVisitGo genf chs sts start
        (max_events - (evs.length : Int)) c' x
      (evs :: rest, c'')
  | _, _, _, _, c, _ => ([], c)

/-- `_children_events` (lines 720-790).  The caller passes the effective
subsection flag (`subsection_events && isinstance(ir, SectionIR)` is decided
statically at every call site).  Visits children under the budget, pads with
empty sublists up to the child count, then wraps `SectionIR`-typed children
in SUBSECTION events. -/
def _children_eventsGo (genf : GenFun) (children : List IR)
    (children_start : List Int) (subsection_events : Bool) (start : Int)
    (max_events : Int) (c : Nat) (x : Bool) : List (List Event) × Nat :=
  let m := if subsection_events
    then max_events - 2 * (children.length : Int) else max_events
  let (visited, c1) := childrenVisitGo genf children children_start start m c x
  let slots := visited ++ List.replicate (children.length - visited.length) []
  if subsection_events then wrapSlots children children_start slots start c1
  else (slots, c1)

/-- `generate_event_list_section` (lines 40-127), with the node's fields
passed explicitly: this is exactly how the Python code calls it on the
`SectionIR` subclasses `MatchIR`, `CaseIR` and `EmptyBranchIR`.  Note the
allocation order: PRNG ids, then all children ids, then `start_id` for
SECTION_START, then the SECTION_END id. -/
def genSectionCoreGo (genf : GenFun) (sectionName : Nat) (len : Int)
    (trigger_output : List (Nat × Nat)) (prng_setup : Option (Int × Int))
    (children_start : List Int) (children : List IR)
    (start : Int) (max_events : Int) (c : Nat) (x : Bool) :
    List Event × Nat :=
  -- We'll wrap the child events in the section start and end events
  let m1 := max_events - 2
  let (trigger_set_events, trigger_clear_events, m2) :=
    triggerEvents trigger_output start len m1
  let (prng_setup_events, prng_drop_events, m3, c2) :=
    prngSetupEvents prng_setup start len m2 c
  let (children_events, c3) :=
    _children_eventsGo genf children children_start true start m3 c2 x
  let start_id := c3
  (({ event_type := .SECTION_START, time := start, id := some start_id,
      chain_element_id := some start_id } : Event) ::
   trigger_set_events ++ prng_setup_events ++ children_events.flatten ++
   prng_drop_events ++ trigger_clear_events ++
   [{ event_type := .SECTION_END, time := start + len, id := some (start_id + 1),
      chain_element_id := some start_id }],
   c3 + 2)

/-- `generate_event_list_loop_iteration` (lines 460-535), with the node's
fields passed explicitly: this is exactly how the compressed-loop expansion
calls it on `prototype.compressed_iteration(iteration)`, which (modelled from
the spec, `loop_iteration_ir.py` being outside the provided sources) is a
copy of the prototype that differs only in the `iteration` index and the
`shadow` flag. -/
def genLoopIterationCoreGo (genf : GenFun) (sectionName : Nat) (len : Int)
    (iteration : Nat) (num_repeats : Nat) (sweeps : List Nat)
    (prng_sample : Option Nat) (shadow : Bool) (children_start : List Int)
    (children : List IR) (start : Int) (max_events : Int) (c : Nat)
    (x : Bool) : List Event × Nat :=
  let endTime := start + len
  let m1 := max_events - (sweeps.length : Int)
  let m2 := if iteration == 0 then m1 - 1 else m1
  -- we'll add one LOOP_STEP_START, LOOP_STEP_END, LOOP_ITERATION_END each
  let m3 := m2 - 3
  let (children_events, c1) :=
    _children_eventsGo genf children children_start true start m3 c x
  let event_list : List Event :=
    { event_type := .LOOP_STEP_START, time := start, nesting_level := some 0 } ::
    parameterSetEvents sweeps start ++ prngSampleDrawEvents prng_sample start ++
    children_events.flatten ++
    [{ event_type := .LOOP_STEP_END, time := endTime, nesting_level := some 0 }] ++
    prngSampleDropEvents prng_sample endTime ++
    (if iteration == 0 then
      [{ event_type := .LOOP_ITERATION_END, time := endTime,
         nesting_level := some 0 }]
     else [])
  (if shadow then event_list.map setShadow else event_list, c1)

/-- The shadow-iteration expansion loop of `generate_event_list_loop`
(lines 308-328): starting from iteration index 1, repeatedly charge the
previous iteration's event count to the budget, stop once it is exhausted,
advance the start by the prototype's length, and emit a shadow copy of the
prototype (the prototype's fields with the new iteration index and the
shadow flag set). -/
def shadowIterationsGo (genf : GenFun) (protoName : Nat) (protoLen : Int)
    (num_repeats : Nat) (sweeps : List Nat) (prng_sample : Option Nat)
    (children_start : List Int) (children : List IR) :
    Nat → Nat → Int → Int → Int → Nat → Bool → List (List Event) × Nat
  | 0, _, _, _, _, c, _ => ([], c)
  | r + 1, idx, prevLen, iteration_start, max_events, c, x =>
    let m := max_events - prevLen
    if m ≤ 0 then ([], c)
    else
      let istart := iteration_start + protoLen
      let (evs, c') := genLoopIterationCoreGo genf protoName protoLen idx
        num_repeats sweeps prng_sample true children_start children istart m c x
      let (rest, c'') := shadowIterationsGo genf protoName protoLen
        num_repeats sweeps prng_sample children_start children r (idx + 1)
        (evs.length : Int) istart m c' x
      (evs :: rest, c'')

/-- The `expand_loops` arm of the compressed branch (lines 308-328): the
prototype is asserted to be a `LoopIterationIR`; shadow copies are derived
from its fields. -/
def genShadowExpansionGo (genf : GenFun) (child : IR) (ev0 : List Event)
    (iterations : Nat) (start : Int) (max_events : Int) (c0 : Nat) (x : Bool) :
    List (List Event) × Nat :=
  match child with
  | .LoopIterationIR cname clen _ cnum csweeps cprng _ ccs cch =>
    let (shadows, c2) := shadowIterationsGo genf cname clen cnum csweeps cprng
      ccs cch (iterations - 1) 1 (ev0.length : Int) start max_events c0 x
    (ev0 :: shadows, c2)
  | _ => ([ev0], c0)  -- assert isinstance(prototype, LoopIterationIR)

/-- The compressed branch of `generate_event_list_loop` (lines 294-328):
emit the prototype iteration (`children[0]` at `start + children_start[0]`),
mark its trailing event `compressed = True`, and, if loop expansion is
enabled, append the shadow iterations.  An empty child list would raise an
`IndexError` in Python; here it yields no iteration slots. -/
def genLoopCompressedSlotsGo (genf : GenFun) (children : List IR)
    (children_start : List Int) (iterations : Nat) (start : Int)
    (max_events : Int) (c : Nat) (x : Bool) : List (List Event) × Nat :=
  match children, children_start with
  | child :: _, st0 :: _ =>
    let (ev0, c0) := genf child (start + st0) max_events c x
    let ev0 := setLastCompressed ev0
    if x then genShadowExpansionGo genf child ev0 iterations start max_events c0 x
    else ([ev0], c0)
  | _, _ => ([], c)

/-- One dispatch step of `generate_event_list` (the `singledispatch`
function, lines 28-717): emit the event list of `ir` placed at absolute time
`start` under remaining budget `max_events`, drawing ids from the counter
`c`, with loop expansion flag `x`.  The first argument bounds the remaining
recursion depth (see the module comment); all recursive descent goes through
it. -/
def generate_event_list_depth :
    Nat → IR → Int → Int → Nat → Bool → List Event × Nat
  | 0, _, _, _, c, _ => ([], c)
  | d + 1, ir, start, max_events, c, x =>
    let genf : GenFun := fun ir' s' m' c' x' =>
      generate_event_list_depth d ir' s' m' c' x'
    match ir with
    | .RootScheduleIR _ children_start children =>
      -- generate_event_list_root, lines 252-266
      let (slots, c') := _children_eventsGo genf children children_start false
        start (max_events - 2) c x
      (slots.flatten, c')
    | .SectionIR sectionName len trigger_output prng_setup children_start
        children =>
      genSectionCoreGo genf sectionName len trigger_output prng_setup
        children_start children start max_events c x
    | .MatchIR sectionName len trigger_output prng_setup _ _ _ _
        children_start children =>
      -- generate_event_list_match, lines 358-383: reuses the Section rule,
      -- then annotates the SECTION_START event with handle/local/
      -- user_register/prng_sample; those keys are payload-only and not
      -- modelled.
      genSectionCoreGo genf sectionName len trigger_output prng_setup
        children_start children start max_events c x
    | .CaseIR sectionName len trigger_output prng_setup state children_start
        children =>
      -- generate_event_list_case, lines 386-402
      let (evs, c') := genSectionCoreGo genf sectionName len trigger_output
        prng_setup children_start children start max_events c x
      (evs.map (setState state), c')
    | .EmptyBranchIR _ len state signals =>
      -- generate_event_list_empty_branch, lines 405-457.  The call to
      -- generate_event_list_case on a childless, trigger-free, PRNG-free
      -- node is asserted to yield exactly [SECTION_START, SECTION_END]
      -- (with the Case state tag and a fresh chain pair); inlined here.
      let section_start : Event :=
        { event_type := .SECTION_START, time := start, id := some c,
          chain_element_id := some c, state := some state }
      let section_end : Event :=
        { event_type := .SECTION_END, time := start + len, id := some (c + 1),
          chain_element_id := some c, state := some state }
      if max_events ≤ 2 then ([section_start, section_end], c + 2)
      else
        let (delays, c'') := emptyBranchDelays signals start len max_events
          (c + 2)
        (section_start :: delays ++ [section_end], c'')
    | .LoopIR _ len compressed iterations children_start children =>
      -- generate_event_list_loop, lines 269-355
      let m := max_events - 3
      let (slots, c1) :=
        if !compressed then
          -- unrolled loop: child flattening without subsection events
          _children_eventsGo genf children children_start false start m c x
        else
          genLoopCompressedSlotsGo genf children children_start iterations
            start m c x
      let slots := slots.map (List.map bumpNesting)
      let start_id := c1
      ([{ event_type := .SECTION_START, time := start, id := some start_id,
          chain_element_id := some start_id, nesting_level := some 0 },
        { event_type := .LOOP_START, time := start,
          iterations := some iterations, compressed := some compressed,
          chain_element_id := some start_id, nesting_level := some 0 }] ++
       slots.flatten ++
       [{ event_type := .LOOP_END, time := start + len,
          chain_element_id := some start_id, nesting_level := some 0 },
        { event_type := .SECTION_END, time := start + len,
          chain_element_id := some start_id, nesting_level := some 0 }],
       c1 + 1)
    | .LoopIterationIR sectionName len iteration num_repeats sweeps
        prng_sample shadow children_start children =>
      genLoopIterationCoreGo genf sectionName len iteration num_repeats
        sweeps prng_sample shadow children_start children start max_events c x
    | .PulseIR _ len offset has_pulse is_acquire =>
      -- generate_event_list_pulse, lines 538-655
      let start_id := c
      let end_id := c + 1
      if !has_pulse then
        -- is_delay: pulse_ir.pulse.pulse is None
        ([{ event_type := .DELAY_START, time := start, id := some start_id,
            chain_element_id := some start_id },
          { event_type := .DELAY_END, time := start + len, id := some end_id,
            chain_element_id := some start_id }], c + 2)
      else if is_acquire then
        ([{ event_type := .ACQUIRE_START, time := start + offset,
            id := some start_id, chain_element_id := some start_id },
          { event_type := .ACQUIRE_END, time := start + len, id := some end_id,
            chain_element_id := some start_id }], c + 2)
      else
        ([{ event_type := .PLAY_START, time := start + offset,
            id := some start_id, chain_element_id := some start_id },
          { event_type := .PLAY_END, time := start + len, id := some end_id,
            chain_element_id := some start_id }], c + 2)
    | .AcquireGroupIR _ len offset =>
      -- generate_event_list_acquire_group, lines 130-210 (budget ignored)
      ([{ event_type := .ACQUIRE_START, time := start + offset, id := some c,
          chain_element_id := some c },
        { event_type := .ACQUIRE_END, time := start + len, id := some (c + 1),
          chain_element_id := some c }], c + 2)
    | .OscillatorFrequencyStepIR _ len params oscillators values _ =>
      -- generate_event_list_oscillator_frequency_step, lines 213-249
      oscStepEvents ((params.zip oscillators).zip values) start len c
    | .PhaseResetIR _ _ hw_osc_devices reset_sw_oscillators =>
      -- generate_event_list_phase_reset, lines 685-717
      let (evs, c') := hwPhaseResetEvents hw_osc_devices start c
      if reset_sw_oscillators then
        (evs ++ [{ event_type := .RESET_SW_OSCILLATOR_PHASE, time := start,
                   id := some c' }], c' + 1)
      else (evs, c')
    | .PrecompClearIR _ =>
      -- generate_event_list_precomp_clear, lines 658-676
      ([{ event_type := .RESET_PRECOMPENSATION_FILTERS, time := start,
          id := some c }], c + 1)
    | .ReserveIR _ =>
      -- generate_event_list_reserve, lines 679-682
      ([], c)

/-- `generate_event_list`: the top-level dispatcher.  `irSize ir` strictly
exceeds the tree's nesting depth, so the depth-exhausted branch of
`generate_event_list_depth` is never reached. -/
def generate_event_list (ir : IR) (start : Int) (max_events : Int) (c : Nat)
    (x : Bool) : List Event × Nat :=
  generate_event_list_depth (irSize ir) ir start max_events c x

/-- Modelled from the spec's words for the counterfactual reading of §4.2:
"six structural events accounted for in the budget before descent".  This is
the loop arm of `generate_event_list` with six budget units subtracted
before visiting the children (the actual code subtracts 3, line 282). -/
def loopEmissionChargingSix (sectionName : Nat) (len : Int) (compressed : Bool)
    (iterations : Nat) (children_start : List Int) (children : List IR)
    (start : Int) (max_events : Int) (c : Nat) (x : Bool) : List Event × Nat :=
  let m := max_events - 6
  let (slots, c1) :=
    if !compressed then
      _children_eventsGo generate_event_list children children_start false
        start m c x
    else
      genLoopCompressedSlotsGo generate_event_list children children_start
        iterations start m c x
  let slots := slots.map (List.map bumpNesting)
  let start_id := c1
  ([{ event_type := .SECTION_START, time := start, id := some start_id,
      chain_element_id := some start_id, nesting_level := some 0 },
    { event_type := .LOOP_START, time := start, iterations := some iterations,
      compressed := some compressed, chain_element_id := some start_id,
      nesting_level := some 0 }] ++
   slots.flatten ++
   [{ event_type := .LOOP_END, time := start + len,
      chain_element_id := some start_id, nesting_level := some 0 },
    { event_type := .SECTION_END, time := start + len,
      chain_element_id := some start_id, nesting_level := some 0 }],
   c1 + 1)

/-- The structurally chain-paired event kinds: the `*_START`/`*_END` families
that carry a `chain_element_id`. -/
inductive PairKind where
  | sec | subsec | loopPair | osc | acq | play | delayPair
deriving DecidableEq, Repr, Fintype

/-- The START member of a pair kind. -/
def startType : PairKind → EventType
  | .sec => .SECTION_START
  | .subsec => .SUBSECTION_START
  | .loopPair => .LOOP_START
  | .osc => .SET_OSCILLATOR_FREQUENCY_START
  | .acq => .ACQUIRE_START
  | .play => .PLAY_START
  | .delayPair => .DELAY_START

/-- The END member of a pair kind. -/
def endType : PairKind → EventType
  | .sec => .SECTION_END
  | .subsec => .SUBSECTION_END
  | .loopPair => .LOOP_END
  | .osc => .SET_OSCILLATOR_FREQUENCY_END
  | .acq => .ACQUIRE_END
  | .play => .PLAY_END
  | .delayPair => .DELAY_END

/-- Event kinds that always carry an `id` drawn from the allocator. -/
def idKinds : List EventType :=
  [.SECTION_START, .SUBSECTION_START, .SUBSECTION_END, .PRNG_SETUP,
   .DROP_PRNG_SETUP, .SET_OSCILLATOR_FREQUENCY_START,
   .SET_OSCILLATOR_FREQUENCY_END, .ACQUIRE_START, .ACQUIRE_END,
   .PLAY_START, .PLAY_END, .DELAY_START, .DELAY_END,
   .RESET_HW_OSCILLATOR_PHASE, .RESET_SW_OSCILLATOR_PHASE,
   .RESET_PRECOMPENSATION_FILTERS]

/-- Event kinds that never carry an `id` (note that `SECTION_END` is in
neither list: a Section's SECTION_END draws an id but a Loop's does not). -/
def noIdKinds : List EventType :=
  [.LOOP_START, .LOOP_END, .LOOP_STEP_START, .LOOP_STEP_END,
   .LOOP_ITERATION_END, .PARAMETER_SET, .DRAW_PRNG_SAMPLE,
   .DROP_PRNG_SAMPLE, .DIGITAL_SIGNAL_STATE_CHANGE]

/-- Event kinds that carry a `chain_element_id` (exactly the members of the
chain-paired kinds). -/
def chainKinds : List EventType :=
  [.SECTION_START, .SECTION_END, .SUBSECTION_START, .SUBSECTION_END,
   .LOOP_START, .LOOP_END, .SET_OSCILLATOR_FREQUENCY_START,
   .SET_OSCILLATOR_FREQUENCY_END, .ACQUIRE_START, .ACQUIRE_END,
   .PLAY_START, .PLAY_END, .DELAY_START, .DELAY_END]

/-- START kinds whose event carries its own fresh id, equal to its
`chain_element_id` (all pair kinds except `LOOP_START`, which carries the
enclosing SECTION_START's chain id and no id of its own). -/
def startIdKinds : List EventType :=
  [.SECTION_START, .SUBSECTION_START, .SET_OSCILLATOR_FREQUENCY_START,
   .ACQUIRE_START, .PLAY_START, .DELAY_START]

/-- The ids carried by an event list, in emission order. -/
def evIds (evs : List Event) : List Nat := evs.filterMap Event.id

/-- The fields of an event that the pairing/id invariant depends on; the
tagging passes (`shadow`, `state`, `nesting_level`, `compressed`) leave them
unchanged. -/
def eventCore (e : Event) : EventType × Int × Option Nat × Option Nat :=
  (e.event_type, e.time, e.id, e.chain_element_id)

/-- Number of events of type `t` carrying chain id `k`. -/
def countKC (t : EventType) (k : Nat) (evs : List Event) : Nat :=
  evs.countP (fun e => decide (e.event_type = t ∧ e.chain_element_id = some k))

/-- The master invariant of one generation step running the allocator from
`c0` to `c1` and emitting `evs`:
ids and chain ids are drawn from `[c0, c1)` and ids never repeat;
every chain-paired kind is balanced (as many STARTs as ENDs per chain id)
with at most one START per chain id, and a matched END never precedes its
START in time; START events of `startIdKinds` own their chain id;
id/chain presence is as recorded by `idKinds`/`noIdKinds`/`chainKinds`. -/
structure GenInv (c0 c1 : Nat) (evs : List Event) : Prop where
  counter_le : c0 ≤ c1
  id_range : ∀ e ∈ evs, ∀ i, e.id = some i → c0 ≤ i ∧ i < c1
  chain_range : ∀ e ∈ evs, ∀ i, e.chain_element_id = some i → c0 ≤ i ∧ i < c1
  ids_nodup : (evIds evs).Nodup
  balanced : ∀ pk k, countKC (startType pk) k evs = countKC (endType pk) k evs
  start_unique : ∀ pk k, countKC (startType pk) k evs ≤ 1
  pair_times : ∀ pk k, ∀ e ∈ evs, ∀ f ∈ evs, e.event_type = startType pk →
    f.event_type = endType pk → e.chain_element_id = some k →
    f.chain_element_id = some k → e.time ≤ f.time
  chain_own : ∀ e ∈ evs, e.event_type ∈ startIdKinds →
    e.id.isSome ∧ e.chain_element_id = e.id
  id_present : ∀ e ∈ evs, e.event_type ∈ idKinds → e.id.isSome
  id_absent : ∀ e ∈ evs, e.event_type ∈ noIdKinds → e.id = none
  chain_iff : ∀ e ∈ evs, e.chain_element_id.isSome ↔ e.event_type ∈ chainKinds

/-- Per-slot invariant for a list of child event sublists generated with one
threaded allocator: consecutive slots hold `GenInv` over consecutive counter
ranges. -/
inductive SlotsInv : Nat → Nat → List (List Event) → Prop where
  | nil (c : Nat) : SlotsInv c c []
  | cons {c0 c1 c2 : Nat} {sl : List Event} {sls : List (List Event)} :
      GenInv c0 c1 sl → SlotsInv c1 c2 sls → SlotsInv c0 c2 (sl :: sls)

/-! Shallow embedding of `match_schedule.py`. -/

/-- `ceil_to_grid` from `laboneq.compiler.new_scheduler.utils` (imported by
`match_schedule.py` but outside the provided sources).  Modelled from the
spec: "Grid: the minimum timing granularity (in tinysamples) to which
certain events (e.g., branch decisions) must be aligned, via ceiling
rounding" — the least multiple of `grid` that is `>= value`. -/
def ceil_to_grid (value grid : Int) : Int := grid * ⌈(value : ℚ) / (grid : ℚ)⌉

/-- `_get_total_rounded_delay_samples` (`match_schedule.py` lines 30-34):
sum the per-port delays (`None` = 0) converted to samples, then round the
sum to the device granularity via `(ceil(delay / granularity + 0.5) - 1) *
granularity`.  Real-number arithmetic stands in for Python floats; Python's
banker's `round` is modelled by `round` (they agree except at exact .5
ties). -/
def _get_total_rounded_delay_samples (port_delays : List (Option ℚ))
    (sample_frequency_hz : ℚ) (granularity_samples : Int) : Int :=
  let delay : Int :=
    (port_delays.map (fun d => round ((d.getD 0) * sample_frequency_hz))).sum
  (⌈(delay : ℚ) / (granularity_samples : ℚ) + 1 / 2⌉ - 1) * granularity_samples

/-- The acquisition-side readout-end computation of
`_compute_start_with_latency` (lines 88-113), in device samples from
trigger. -/
def acquire_end_in_samples (acq_start acq_length qa_lead_time qa_delay_signal
    qa_base_delay_signal qa_sampling_rate : ℚ) (qa_total_port_delay : Int) :
    Int :=
  round ((acq_start + acq_length + qa_lead_time + qa_delay_signal +
    qa_base_delay_signal) * qa_sampling_rate) + qa_total_port_delay

/-- The per-signal data consumed by the signal loop of
`_compute_start_with_latency` (lines 115-162): the external feedback
latency model for the signal's device class (`QCCSFeedbackModel(...)
.get_latency`), the device's sequencer clock rate, and the signal's
configured delays (`None` modelled as 0, as in `x or 0.0`). -/
structure SGSignalModel where
  latencyAt : Int → Int
  sequencer_rate : ℚ
  start_delay : ℚ
  delay_signal : ℚ

/-- One signal's candidate earliest execute-table entry (lines 127-162):
latency converted to tinysamples minus the signal's own lead/delay offsets,
ceiled to the branch grid. -/
def signalCandidate (TINYSAMPLE : ℚ) (grid : Int) (acquireEnd : Int)
    (sg : SGSignalModel) : Int :=
  let sg_seq_dt_for_latency_in_ts : Int :=
    round (1 / (2 * sg.sequencer_rate * TINYSAMPLE))
  let latency_in_ts := sg.latencyAt acquireEnd * sg_seq_dt_for_latency_in_ts
  ceil_to_grid
    (latency_in_ts - round ((sg.start_delay + sg.delay_signal) / TINYSAMPLE))
    grid

/-- The signal loop and final result of `_compute_start_with_latency`
(lines 62, 115-164): the maximum of 0 and every signal's candidate, then the
maximum with the originally proposed `start`. -/
def _compute_start_with_latency (TINYSAMPLE : ℚ) (grid : Int)
    (acquireEnd : Int) (signals : List SGSignalModel) (start : Int) : Int :=
  max (signals.foldl
    (fun acc sg => max acc (signalCandidate TINYSAMPLE grid acquireEnd sg)) 0)
    start

mutual

/-- Executable companion of `WFIR`: decides non-negative lengths, the pulse
and acquire-group offset bounds, and recursively checks all children. -/
def wfirCheck : IR → Bool
  | .RootScheduleIR len _ ch => decide (0 ≤ len) && wfirCheckList ch
  | .SectionIR _ len _ _ _ ch => decide (0 ≤ len) && wfirCheckList ch
  | .MatchIR _ len _ _ _ _ _ _ _ ch => decide (0 ≤ len) && wfirCheckList ch
  | .CaseIR _ len _ _ _ _ ch => decide (0 ≤ len) && wfirCheckList ch
  | .EmptyBranchIR _ len _ _ => decide (0 ≤ len)
  | .LoopIR _ len _ _ _ ch => decide (0 ≤ len) && wfirCheckList ch
  | .LoopIterationIR _ len _ _ _ _ _ _ ch => decide (0 ≤ len) && wfirCheckList ch
  | .PulseIR _ len off _ _ => decide (0 ≤ len) && decide (off ≤ len)
  | .AcquireGroupIR _ len off => decide (0 ≤ len) && decide (off ≤ len)
  | .OscillatorFrequencyStepIR _ len _ _ _ _ => decide (0 ≤ len)
  | .PhaseResetIR _ len _ _ => decide (0 ≤ len)
  | .PrecompClearIR len => decide (0 ≤ len)
  | .ReserveIR len => decide (0 ≤ len)

/-- `wfirCheck` over a child list. -/
def wfirCheckList : List IR → Bool
  | [] => true
  | c :: rest => wfirCheck c && wfirCheckList rest

end

mutual

/-- A budget-independent upper bound on the number of events one
`generate_event_list` dispatch can emit for a node, however large the
budget: used to express "a budget large enough never to trigger
truncation". -/
def ubEvents : IR → Nat
  | .RootScheduleIR _ _ ch => ubList ch + 2 * ch.length
  | .SectionIR _ _ tr _ _ ch =>
      4 + 2 * tr.length + ubList ch + 2 * ch.length
  | .MatchIR _ _ tr _ _ _ _ _ _ ch =>
      4 + 2 * tr.length + ubList ch + 2 * ch.length
  | .CaseIR _ _ tr _ _ _ ch =>
      4 + 2 * tr.length + ubList ch + 2 * ch.length
  | .EmptyBranchIR _ _ _ sigs => 2 + 2 * sigs.length
  | .LoopIR _ _ _ iterations _ ch =>
      4 + (iterations + 1) * (ubList ch + 2 * ch.length)
  | .LoopIterationIR _ _ _ _ sweeps _ _ _ ch =>
      5 + sweeps.length + ubList ch + 2 * ch.length
  | .PulseIR _ _ _ _ _ => 2
  | .AcquireGroupIR _ _ _ => 2
  | .OscillatorFrequencyStepIR _ _ params _ _ _ => 2 * params.length
  | .PhaseResetIR _ _ hw _ => hw.length + 1
  | .PrecompClearIR _ => 1
  | .ReserveIR _ => 0

/-- Sum of `ubEvents` over a child list. -/
def ubList : List IR → Nat
  | [] => 0
  | c :: rest => ubEvents c + ubList rest

end

/-- The result of the granularity rounding step, as a standalone formula. -/
theorem total_rounded_delay_eq (pds : List (Option ℚ)) (f : ℚ) (g : Int) :
    _get_total_rounded_delay_samples pds f g =
    (⌈(((pds.map (fun d => round ((d.getD 0) * f))).sum : Int) : ℚ) / (g : ℚ) +
      1 / 2⌉ - 1) * g := rfl

/-- C10 counterexample ingredient: a single 12-sample port delay on an
8-sample granularity rounds DOWN to 8. -/
theorem c10_cex_eval :
    _get_total_rounded_delay_samples [some 12] 1 8 = 8 ∧
    (([some (12 : ℚ)].map (fun d => round ((d.getD 0) * 1))).sum : Int) = 12 ∧
    _get_total_rounded_delay_samples [some 12] 1 8 <
      ([some (12 : ℚ)].map (fun d => round ((d.getD 0) * 1))).sum := by
  refine ⟨?_, by norm_num, ?_⟩ <;> rw [total_rounded_delay_eq] <;> norm_num

/-- C10 amended: nearest-multiple bounds. -/
theorem c10_amended (pds : List (Option ℚ)) (f : ℚ) (g : Int) (hg : 0 < g) :
    (g ∣ _get_total_rounded_delay_samples pds f g) ∧
    2 * ((pds.map (fun d => round ((d.getD 0) * f))).sum -
        _get_total_rounded_delay_samples pds f g) ≤ g ∧
    2 * (_get_total_rounded_delay_samples pds f g -
        (pds.map (fun d => round ((d.getD 0) * f))).sum) ≤ g := by
  set delay : Int := (pds.map (fun d => round ((d.getD 0) * f))).sum with hdelay
  have hres : _get_total_rounded_delay_samples pds f g =
      (⌈(delay : ℚ) / (g : ℚ) + 1 / 2⌉ - 1) * g := rfl
  rw [hres]
  have hgq : (0 : ℚ) < (g : ℚ) := by exact_mod_cast hg
  set n : Int := ⌈(delay : ℚ) / (g : ℚ) + 1 / 2⌉ with hn
  have hq : (delay : ℚ) / (g : ℚ) * (g : ℚ) = (delay : ℚ) :=
    div_mul_cancel₀ _ (ne_of_gt hgq)
  have h1 : (delay : ℚ) / (g : ℚ) + 1 / 2 ≤ (n : ℚ) := Int.le_ceil _
  have h2 : (n : ℚ) < (delay : ℚ) / (g : ℚ) + 1 / 2 + 1 := Int.ceil_lt_add_one _
  have ha : 2 * ((delay : ℚ) - ((n : ℚ) - 1) * (g : ℚ)) ≤ (g : ℚ) := by
    nlinarith [mul_le_mul_of_nonneg_right h1 hgq.le]
  have hb : 2 * (((n : ℚ) - 1) * (g : ℚ) - (delay : ℚ)) ≤ (g : ℚ) := by
    nlinarith [mul_le_mul_of_nonneg_right h2.le hgq.le]
  exact ⟨dvd_mul_left g _, by exact_mod_cast ha, by exact_mod_cast hb⟩

theorem ceil_to_grid_dvd (v g : Int) : g ∣ ceil_to_grid v g :=
  Dvd.intro _ rfl

theorem ceil_to_grid_mono (a b g : Int) (hg : 0 < g) (h : a ≤ b) :
    ceil_to_grid a g ≤ ceil_to_grid b g := by
  unfold ceil_to_grid
  have hgq : (0 : ℚ) < (g : ℚ) := by exact_mod_cast hg
  have hd : (a : ℚ) / (g : ℚ) ≤ (b : ℚ) / (g : ℚ) := by
    rw [div_le_div_iff_of_pos_right hgq]
    exact_mod_cast h
  exact mul_le_mul_of_nonneg_left (Int.ceil_le_ceil hd) hg.le

theorem round_q_mono (a b : ℚ) (h : a ≤ b) : round a ≤ round b := by
  rw [round_eq, round_eq]
  exact Int.floor_le_floor (by linarith)

theorem round_q_nonneg (q : ℚ) (h : 0 ≤ q) : 0 ≤ round q := by
  have := round_q_mono 0 q h
  simpa using this

theorem c5_cex_eval :
    _compute_start_with_latency 1 1 0
      [{ latencyAt := fun _ => 10, sequencer_rate := 1/2,
         start_delay := 0, delay_signal := 0 }] 0 = 10 ∧
    _compute_start_with_latency 1 1 0
      [{ latencyAt := fun _ => 10, sequencer_rate := 1/2,
         start_delay := 0, delay_signal := 2 }] 0 = 8 ∧
    _compute_start_with_latency 1 1 0
      [{ latencyAt := fun _ => 10, sequencer_rate := 1/2,
         start_delay := 0, delay_signal := 2 }] 0 <
    _compute_start_with_latency 1 1 0
      [{ latencyAt := fun _ => 10, sequencer_rate := 1/2,
         start_delay := 0, delay_signal := 0 }] 0 := by
  refine ⟨?_, ?_, ?_⟩ <;> norm_num [_compute_start_with_latency,
    signalCandidate, ceil_to_grid, round_eq]

theorem signalCandidate_mono (TS : ℚ) (grid : Int) (acqEnd : Int)
    (a b : SGSignalModel) (hg : 0 < grid) (hTS : 0 < TS)
    (hr : 0 < a.sequencer_rate)
    (hrate_eq : a.sequencer_rate = b.sequencer_rate)
    (hsd : a.start_delay = b.start_delay) (hds : a.delay_signal = b.delay_signal)
    (hlat : a.latencyAt acqEnd ≤ b.latencyAt acqEnd) :
    signalCandidate TS grid acqEnd a ≤ signalCandidate TS grid acqEnd b := by
  unfold signalCandidate
  rw [← hrate_eq, ← hsd, ← hds]
  apply ceil_to_grid_mono _ _ _ hg
  have hdt : 0 ≤ round (1 / (2 * a.sequencer_rate * TS)) :=
    round_q_nonneg _ (by positivity)
  have := mul_le_mul_of_nonneg_right hlat hdt
  omega

theorem fold_max_cand_mono (TS : ℚ) (grid : Int) (acqEnd : Int)
    (ss1 ss2 : List SGSignalModel) (hg : 0 < grid) (hTS : 0 < TS)
    (hrate : ∀ s ∈ ss1, 0 < s.sequencer_rate)
    (h : List.Forall₂ (fun a b =>
      a.sequencer_rate = b.sequencer_rate ∧ a.start_delay = b.start_delay ∧
      a.delay_signal = b.delay_signal ∧
      a.latencyAt acqEnd ≤ b.latencyAt acqEnd) ss1 ss2) :
    ∀ a1 a2 : Int, a1 ≤ a2 →
      ss1.foldl (fun acc sg => max acc (signalCandidate TS grid acqEnd sg)) a1 ≤
      ss2.foldl (fun acc sg => max acc (signalCandidate TS grid acqEnd sg)) a2 := by
  induction h with
  | nil => intro a1 a2 ha; simpa using ha
  | @cons x y l1 l2 hxy htail IH =>
    intro a1 a2 ha
    simp only [List.foldl_cons]
    apply IH (fun s hs => hrate s (List.mem_cons_of_mem _ hs))
    exact max_le_max ha (signalCandidate_mono TS grid acqEnd x y hg hTS
      (hrate x (List.mem_cons_self _ _)) hxy.1 hxy.2.1 hxy.2.2.1 hxy.2.2.2)

theorem fold_max_cand_dvd (TS : ℚ) (grid : Int) (acqEnd : Int)
    (ss : List SGSignalModel) :
    ∀ a : Int, grid ∣ a →
      grid ∣ ss.foldl (fun acc sg => max acc (signalCandidate TS grid acqEnd sg)) a := by
  induction ss with
  | nil => intro a ha; simpa using ha
  | cons s rest IH =>
    intro a ha
    simp only [List.foldl_cons]
    apply IH
    rcases max_cases a (signalCandidate TS grid acqEnd s) with ⟨he, _⟩ | ⟨he, _⟩
    · rw [he]; exact ha
    · rw [he]; exact ceil_to_grid_dvd _ _

theorem c5_amended (TS : ℚ) (grid : Int) (acqEnd : Int)
    (ss1 ss2 : List SGSignalModel) (start : Int)
    (hg : 0 < grid) (hTS : 0 < TS)
    (hrate : ∀ s ∈ ss1, 0 < s.sequencer_rate)
    (h : List.Forall₂ (fun a b =>
      a.sequencer_rate = b.sequencer_rate ∧ a.start_delay = b.start_delay ∧
      a.delay_signal = b.delay_signal ∧
      a.latencyAt acqEnd ≤ b.latencyAt acqEnd) ss1 ss2) :
    (start ≤ _compute_start_with_latency TS grid acqEnd ss1 start) ∧
    (_compute_start_with_latency TS grid acqEnd ss1 start = start ∨
      grid ∣ _compute_start_with_latency TS grid acqEnd ss1 start) ∧
    _compute_start_with_latency TS grid acqEnd ss1 start ≤
      _compute_start_with_latency TS grid acqEnd ss2 start := by
  refine ⟨le_max_right _ _, ?_, ?_⟩
  · unfold _compute_start_with_latency
    rcases max_cases (ss1.foldl
      (fun acc sg => max acc (signalCandidate TS grid acqEnd sg)) 0) start with
      ⟨he, _⟩ | ⟨he, _⟩
    · right; rw [he]; exact fold_max_cand_dvd TS grid acqEnd ss1 0 (dvd_zero _)
    · left; exact he
  · exact max_le_max
      (fold_max_cand_mono TS grid acqEnd ss1 ss2 hg hTS hrate h 0 0 le_rfl)
      le_rfl

/-! Basic facts about `evIds`, `countKC` and `GenInv`. -/

theorem evIds_append (a b : List Event) : evIds (a ++ b) = evIds a ++ evIds b :=
  List.filterMap_append a b _

theorem countKC_append (t : EventType) (k : Nat) (a b : List Event) :
    countKC t k (a ++ b) = countKC t k a + countKC t k b :=
  List.countP_append _ _ _

theorem countKC_nil (t : EventType) (k : Nat) : countKC t k [] = 0 := rfl

theorem countKC_pos_mem {t : EventType} {k : Nat} {evs : List Event}
    (h : 0 < countKC t k evs) :
    ∃ e ∈ evs, e.event_type = t ∧ e.chain_element_id = some k := by
  obtain ⟨e, he, hp⟩ := List.countP_pos_iff.mp h
  exact ⟨e, he, by simpa using hp⟩

theorem countKC_eq_zero_of_no_chain {t : EventType} {k : Nat}
    {evs : List Event} (h : ∀ e ∈ evs, e.chain_element_id = none) :
    countKC t k evs = 0 := by
  apply List.countP_eq_zero.mpr
  intro e he
  simp [h e he]

theorem evIds_eq_nil_of_no_id {evs : List Event}
    (h : ∀ e ∈ evs, e.id = none) : evIds evs = [] := by
  unfold evIds
  induction evs with
  | nil => rfl
  | cons e rest IH =>
    rw [List.filterMap_cons, h e (List.mem_cons_self _ _)]
    exact IH (fun f hf => h f (List.mem_cons_of_mem _ hf))

theorem GenInv.mono {c0 c1 c0' c1' : Nat} {evs : List Event}
    (h : GenInv c0 c1 evs) (h0 : c0' ≤ c0) (h1 : c1 ≤ c1') :
    GenInv c0' c1' evs := by
  obtain ⟨hle, hid, hch, hnd, hbal, hsu, hpt, hco, hip, hia, hci⟩ := h
  refine ⟨by omega, ?_, ?_, hnd, hbal, hsu, hpt, hco, hip, hia, hci⟩
  · intro e he i hi
    have := hid e he i hi
    omega
  · intro e he i hi
    have := hch e he i hi
    omega

theorem GenInv.append2 {a1 b1 a2 b2 a b : Nat} {A B : List Event}
    (hA : GenInv a1 b1 A) (hB : GenInv a2 b2 B)
    (ha1 : a ≤ a1) (ha2 : a ≤ a2) (hb1 : b1 ≤ b) (hb2 : b2 ≤ b)
    (hdisj : b1 ≤ a2 ∨ b2 ≤ a1) :
    GenInv a b (A ++ B) := by
  obtain ⟨hle, hid, hch, hnd, hbal, hsu, hpt, hco, hip, hia, hci⟩ := hA
  obtain ⟨hle', hid', hch', hnd', hbal', hsu', hpt', hco', hip', hia', hci'⟩ := hB
  constructor
  · omega
  · intro e he i hi
    rcases List.mem_append.mp he with h | h
    · have := hid e h i hi; omega
    · have := hid' e h i hi; omega
  · intro e he i hi
    rcases List.mem_append.mp he with h | h
    · have := hch e h i hi; omega
    · have := hch' e h i hi; omega
  · rw [evIds_append]
    refine List.Nodup.append hnd hnd' ?_
    intro i hiA hiB
    obtain ⟨e, he, hei⟩ := List.mem_filterMap.mp hiA
    obtain ⟨f, hf, hfi⟩ := List.mem_filterMap.mp hiB
    have h1 := hid e he i hei
    have h2 := hid' f hf i hfi
    omega
  · intro pk k
    rw [countKC_append, countKC_append, hbal pk k, hbal' pk k]
  · intro pk k
    rw [countKC_append]
    by_cases hA0 : 0 < countKC (startType pk) k A
    · by_cases hB0 : 0 < countKC (startType pk) k B
      · exfalso
        obtain ⟨e, he, _, hek⟩ := countKC_pos_mem hA0
        obtain ⟨f, hf, _, hfk⟩ := countKC_pos_mem hB0
        have h1 := hch e he k hek
        have h2 := hch' f hf k hfk
        omega
      · have := hsu pk k; omega
    · have := hsu' pk k; omega
  · intro pk k e he f hf het hft hek hfk
    rcases List.mem_append.mp he with h1 | h1 <;>
      rcases List.mem_append.mp hf with h2 | h2
    · exact hpt pk k e h1 f h2 het hft hek hfk
    · have := hch e h1 k hek
      have := hch' f h2 k hfk
      omega
    · have := hch' e h1 k hek
      have := hch f h2 k hfk
      omega
    · exact hpt' pk k e h1 f h2 het hft hek hfk
  · intro e he ht
    rcases List.mem_append.mp he with h | h
    · exact hco e h ht
    · exact hco' e h ht
  · intro e he ht
    rcases List.mem_append.mp he with h | h
    · exact hip e h ht
    · exact hip' e h ht
  · intro e he ht
    rcases List.mem_append.mp he with h | h
    · exact hia e h ht
    · exact hia' e h ht
  · intro e he
    rcases List.mem_append.mp he with h | h
    · exact hci e h
    · exact hci' e h

theorem GenInv.perm {c0 c1 : Nat} {A B : List Event} (hp : A.Perm B)
    (h : GenInv c0 c1 A) : GenInv c0 c1 B := by
  obtain ⟨hle, hid, hch, hnd, hbal, hsu, hpt, hco, hip, hia, hci⟩ := h
  have hmem : ∀ e, e ∈ B → e ∈ A := fun e he => hp.mem_iff.mpr he
  constructor
  · exact hle
  · exact fun e he => hid e (hmem e he)
  · exact fun e he => hch e (hmem e he)
  · exact ((hp.filterMap Event.id).nodup_iff).mp hnd
  · intro pk k
    unfold countKC at hbal ⊢
    rw [← hp.countP_eq, ← hp.countP_eq]
    exact hbal pk k
  · intro pk k
    unfold countKC at hsu ⊢
    rw [← hp.countP_eq]
    exact hsu pk k
  · exact fun pk k e he f hf => hpt pk k e (hmem e he) f (hmem f hf)
  · exact fun e he => hco e (hmem e he)
  · exact fun e he => hip e (hmem e he)
  · exact fun e he => hia e (hmem e he)
  · exact fun e he => hci e (hmem e he)

theorem eventCore_eq_iff {a b : Event} : eventCore a = eventCore b ↔
    (a.event_type = b.event_type ∧ a.time = b.time ∧ a.id = b.id ∧
     a.chain_element_id = b.chain_element_id) := by
  simp [eventCore, Prod.ext_iff]

theorem countKC_core (t : EventType) (k : Nat) (evs : List Event) :
    countKC t k evs =
    (evs.map eventCore).countP (fun q => decide (q.1 = t ∧ q.2.2.2 = some k)) := by
  rw [List.countP_map]
  rfl

theorem evIds_core (evs : List Event) :
    evIds evs = (evs.map eventCore).filterMap (fun q => q.2.2.1) := by
  rw [List.filterMap_map]
  rfl

theorem GenInv.congr_core {c0 c1 : Nat} {A B : List Event}
    (hcore : B.map eventCore = A.map eventCore) (h : GenInv c0 c1 A) :
    GenInv c0 c1 B := by
  obtain ⟨hle, hid, hch, hnd, hbal, hsu, hpt, hco, hip, hia, hci⟩ := h
  have hmem : ∀ b ∈ B, ∃ a ∈ A, eventCore a = eventCore b := by
    intro b hb
    have : eventCore b ∈ A.map eventCore := by
      rw [← hcore]; exact List.mem_map_of_mem _ hb
    obtain ⟨a, ha, hab⟩ := List.mem_map.mp this
    exact ⟨a, ha, hab⟩
  constructor
  · exact hle
  · intro e he i hi
    obtain ⟨a, ha, hab⟩ := hmem e he
    obtain ⟨_, _, hidq, _⟩ := eventCore_eq_iff.mp hab
    exact hid a ha i (by rw [hidq]; exact hi)
  · intro e he i hi
    obtain ⟨a, ha, hab⟩ := hmem e he
    obtain ⟨_, _, _, hchq⟩ := eventCore_eq_iff.mp hab
    exact hch a ha i (by rw [hchq]; exact hi)
  · rw [evIds_core, hcore, ← evIds_core]
    exact hnd
  · intro pk k
    rw [countKC_core, countKC_core, hcore, ← countKC_core, ← countKC_core]
    exact hbal pk k
  · intro pk k
    rw [countKC_core, hcore, ← countKC_core]
    exact hsu pk k
  · intro pk k e he f hf het hft hek hfk
    obtain ⟨a, ha, hab⟩ := hmem e he
    obtain ⟨hat, hatime, _, hachain⟩ := eventCore_eq_iff.mp hab
    obtain ⟨b, hb, hbb⟩ := hmem f hf
    obtain ⟨hbt, hbtime, _, hbchain⟩ := eventCore_eq_iff.mp hbb
    rw [← hatime, ← hbtime]
    exact hpt pk k a ha b hb (hat.trans het) (hbt.trans hft)
      (by rw [hachain]; exact hek) (by rw [hbchain]; exact hfk)
  · intro e he ht
    obtain ⟨a, ha, hab⟩ := hmem e he
    obtain ⟨hat, _, hidq, hchq⟩ := eventCore_eq_iff.mp hab
    have := hco a ha (by rw [hat]; exact ht)
    rw [← hidq, ← hchq]
    exact this
  · intro e he ht
    obtain ⟨a, ha, hab⟩ := hmem e he
    obtain ⟨hat, _, hidq, _⟩ := eventCore_eq_iff.mp hab
    rw [← hidq]
    exact hip a ha (by rw [hat]; exact ht)
  · intro e he ht
    obtain ⟨a, ha, hab⟩ := hmem e he
    obtain ⟨hat, _, hidq, _⟩ := eventCore_eq_iff.mp hab
    rw [← hidq]
    exact hia a ha (by rw [hat]; exact ht)
  · intro e he
    obtain ⟨a, ha, hab⟩ := hmem e he
    obtain ⟨hat, _, _, hchq⟩ := eventCore_eq_iff.mp hab
    rw [← hchq, ← hat]
    exact hci a ha

theorem eventCore_setState (st : Int) (e : Event) :
    eventCore (setState st e) = eventCore e := rfl

theorem eventCore_setShadow (e : Event) :
    eventCore (setShadow e) = eventCore e := rfl

theorem eventCore_bumpNesting (e : Event) :
    eventCore (bumpNesting e) = eventCore e := by
  unfold bumpNesting
  cases e.nesting_level <;> rfl

theorem map_core_map {f : Event → Event}
    (hf : ∀ e, eventCore (f e) = eventCore e) (evs : List Event) :
    (evs.map f).map eventCore = evs.map eventCore := by
  rw [List.map_map]
  exact List.map_congr_left (fun e _ => hf e)

theorem map_core_setLastCompressed (evs : List Event) :
    (setLastCompressed evs).map eventCore = evs.map eventCore := by
  induction evs with
  | nil => rfl
  | cons e rest IH =>
    cases rest with
    | nil => rfl
    | cons f rest' =>
      show (e :: setLastCompressed (f :: rest')).map eventCore = _
      simp only [List.map_cons]
      rw [show (setLastCompressed (f :: rest')).map eventCore =
        (f :: rest').map eventCore from IH]
      simp

theorem GenInv.map_preserving {c0 c1 : Nat} {evs : List Event}
    {f : Event → Event} (hf : ∀ e, eventCore (f e) = eventCore e)
    (h : GenInv c0 c1 evs) : GenInv c0 c1 (evs.map f) :=
  h.congr_core (map_core_map hf evs)

/-! Decidable facts about the pair-kind tables. -/

theorem startType_mem_chainKinds : ∀ pk, startType pk ∈ chainKinds := by decide

theorem endType_mem_chainKinds : ∀ pk, endType pk ∈ chainKinds := by decide

theorem endType_not_startIdKinds : ∀ pk, endType pk ∉ startIdKinds := by decide

theorem startType_inj : ∀ p q, startType p = startType q → p = q := by decide

theorem endType_inj : ∀ p q, endType p = endType q → p = q := by decide

theorem start_ne_end : ∀ p q, startType p ≠ endType q := by decide

theorem startType_not_noId : ∀ pk, pk ≠ PairKind.loopPair →
    startType pk ∉ noIdKinds := by decide

theorem endType_not_noId : ∀ pk, pk ≠ PairKind.loopPair →
    endType pk ∉ noIdKinds := by decide

theorem countKC_singleton (t : EventType) (k : Nat) (e : Event) :
    countKC t k [e] =
    if e.event_type = t ∧ e.chain_element_id = some k then 1 else 0 := by
  simp [countKC, List.countP_cons]

theorem GenInv.inert {evs : List Event} (c : Nat)
    (h : ∀ e ∈ evs, e.id = none ∧ e.chain_element_id = none ∧
      e.event_type ∉ idKinds ∧ e.event_type ∉ startIdKinds ∧
      e.event_type ∉ chainKinds) :
    GenInv c c evs := by
  constructor
  · exact le_rfl
  · intro e he i hi
    exact absurd hi (by simp [(h e he).1])
  · intro e he i hi
    exact absurd hi (by simp [(h e he).2.1])
  · rw [evIds_eq_nil_of_no_id (fun e he => (h e he).1)]
    exact List.nodup_nil
  · intro pk k
    rw [countKC_eq_zero_of_no_chain (fun e he => (h e he).2.1),
        countKC_eq_zero_of_no_chain (fun e he => (h e he).2.1)]
  · intro pk k
    rw [countKC_eq_zero_of_no_chain (fun e he => (h e he).2.1)]
    omega
  · intro pk k e he f hf _ _ hek _
    exact absurd hek (by simp [(h e he).2.1])
  · intro e he ht
    exact absurd ht (h e he).2.2.2.1
  · intro e he ht
    exact absurd ht (h e he).2.2.1
  · intro e he _
    exact (h e he).1
  · intro e he
    simp [(h e he).2.1, (h e he).2.2.2.2]

theorem GenInv.nil (c : Nat) : GenInv c c [] :=
  GenInv.inert c (by intro e he; exact absurd he (List.not_mem_nil e))

theorem GenInv.singletonId {e : Event} {a : Nat} (hid : e.id = some a)
    (hch : e.chain_element_id = none) (h1 : e.event_type ∉ noIdKinds)
    (h2 : e.event_type ∉ startIdKinds) (h3 : e.event_type ∉ chainKinds) :
    GenInv a (a + 1) [e] := by
  constructor
  · omega
  · intro f hf i hi
    rw [List.mem_singleton.mp hf, hid] at hi
    simp only [Option.some.injEq] at hi
    omega
  · intro f hf i hi
    rw [List.mem_singleton.mp hf, hch] at hi
    exact absurd hi (by simp)
  · simp [evIds, hid]
  · intro pk k
    rw [countKC_singleton, countKC_singleton]
    simp [hch]
  · intro pk k
    rw [countKC_singleton]
    split <;> omega
  · intro pk k f hf g hg _ _ hfk _
    rw [List.mem_singleton.mp hf, hch] at hfk
    exact absurd hfk (by simp)
  · intro f hf ht
    rw [List.mem_singleton.mp hf] at ht
    exact absurd ht h2
  · intro f hf _
    rw [List.mem_singleton.mp hf, hid]
    rfl
  · intro f hf ht
    rw [List.mem_singleton.mp hf] at ht
    exact absurd ht h1
  · intro f hf
    rw [List.mem_singleton.mp hf]
    simp [hch, h3]

theorem GenInv.pairEvents {es ee : Event} {a : Nat} (pk : PairKind)
    (hpk : pk ≠ PairKind.loopPair)
    (hest : es.event_type = startType pk) (heid : es.id = some a)
    (hech : es.chain_element_id = some a)
    (hfet : ee.event_type = endType pk) (hfid : ee.id = some (a + 1))
    (hfch : ee.chain_element_id = some a)
    (ht : es.time ≤ ee.time) :
    GenInv a (a + 2) [es, ee] := by
  have hmem2 : ∀ f ∈ [es, ee], f = es ∨ f = ee := by
    intro f hf
    simpa using hf
  constructor
  · omega
  · intro f hf i hi
    rcases hmem2 f hf with rfl | rfl
    · rw [heid] at hi
      simp only [Option.some.injEq] at hi
      omega
    · rw [hfid] at hi
      simp only [Option.some.injEq] at hi
      omega
  · intro f hf i hi
    rcases hmem2 f hf with rfl | rfl
    · rw [hech] at hi
      simp only [Option.some.injEq] at hi
      omega
    · rw [hfch] at hi
      simp only [Option.some.injEq] at hi
      omega
  · simp [evIds, heid, hfid]
  · intro pk' k
    rw [show ([es, ee] : List Event) = [es] ++ [ee] from rfl,
      countKC_append, countKC_append, countKC_singleton, countKC_singleton,
      countKC_singleton, countKC_singleton, hest, hfet, hech, hfch]
    by_cases hp : pk' = pk
    · subst hp
      have h5 := start_ne_end pk' pk'
      by_cases hk : k = a
      · subst hk
        simp [h5, Ne.symm h5]
      · have hak : ¬ a = k := fun h => hk h.symm
        simp [hak]
    · have h1 : ¬ (startType pk = startType pk') :=
        fun h => hp (startType_inj _ _ h).symm
      have h2 : ¬ (endType pk = endType pk') :=
        fun h => hp (endType_inj _ _ h).symm
      have h3 : ¬ (startType pk = endType pk') := start_ne_end _ _
      have h4 : ¬ (endType pk = startType pk') :=
        fun h => start_ne_end pk' pk h.symm
      simp [h1, h2, h3, h4]
  · intro pk' k
    rw [show ([es, ee] : List Event) = [es] ++ [ee] from rfl,
      countKC_append, countKC_singleton, countKC_singleton, hest, hfet]
    have h4 : ¬ (endType pk = startType pk') :=
      fun h => start_ne_end pk' pk h.symm
    have h5 : countKC (startType pk') k [] = 0 := rfl
    by_cases hc : (startType pk = startType pk' ∧
        es.chain_element_id = some k)
    · rw [if_pos hc, if_neg (fun hcc => h4 hcc.1)]
    · rw [if_neg hc, if_neg (fun hcc => h4 hcc.1)]
      omega
  · intro pk' k f hf g hg hft hgt hfk hgk
    rcases hmem2 f hf with hfe | hfe <;> rcases hmem2 g hg with hge | hge
    · rw [hge] at hgt
      exact absurd (hest.symm.trans hgt) (start_ne_end pk pk')
    · rw [hfe, hge]
      exact ht
    · rw [hfe] at hft
      exact absurd (hfet.symm.trans hft) (fun h => start_ne_end pk' pk h.symm)
    · rw [hfe, hge]
  · intro f hf hft
    rcases hmem2 f hf with rfl | rfl
    · rw [heid, hech]
      exact ⟨rfl, rfl⟩
    · rw [hfet] at hft
      exact absurd hft (endType_not_startIdKinds pk)
  · intro f hf _
    rcases hmem2 f hf with rfl | rfl
    · rw [heid]; rfl
    · rw [hfid]; rfl
  · intro f hf hft
    rcases hmem2 f hf with rfl | rfl
    · rw [hest] at hft
      exact absurd hft (startType_not_noId pk hpk)
    · rw [hfet] at hft
      exact absurd hft (endType_not_noId pk hpk)
  · intro f hf
    rcases hmem2 f hf with rfl | rfl
    · rw [hech, hest]
      simp [startType_mem_chainKinds]
    · rw [hfch, hfet]
      simp [endType_mem_chainKinds]

theorem countKC_cons (t : EventType) (k : Nat) (e : Event) (evs : List Event) :
    countKC t k (e :: evs) = countKC t k evs +
      (if e.event_type = t ∧ e.chain_element_id = some k then 1 else 0) := by
  simp [countKC, List.countP_cons]

theorem GenInv.wrapAfter {c0 c1 : Nat} {inner : List Event} {es ee : Event}
    (pk : PairKind) (hpk : pk ≠ PairKind.loopPair)
    (hinner : GenInv c0 c1 inner)
    (hest : es.event_type = startType pk) (heid : es.id = some c1)
    (hech : es.chain_element_id = some c1)
    (hfet : ee.event_type = endType pk) (hfid : ee.id = some (c1 + 1))
    (hfch : ee.chain_element_id = some c1) (ht : es.time ≤ ee.time) :
    GenInv c0 (c1 + 2) (es :: inner ++ [ee]) := by
  have hpair : GenInv c1 (c1 + 2) [es, ee] :=
    GenInv.pairEvents pk hpk hest heid hech hfet hfid hfch ht
  have happ : GenInv c0 (c1 + 2) (inner ++ [es, ee]) :=
    hinner.append2 hpair le_rfl hinner.counter_le (by omega) le_rfl
      (Or.inl le_rfl)
  exact happ.perm List.perm_middle

theorem GenInv.wrapBefore {a c1 : Nat} {inner : List Event} {es ee : Event}
    (pk : PairKind) (hpk : pk ≠ PairKind.loopPair)
    (hinner : GenInv (a + 2) c1 inner)
    (hest : es.event_type = startType pk) (heid : es.id = some a)
    (hech : es.chain_element_id = some a)
    (hfet : ee.event_type = endType pk) (hfid : ee.id = some (a + 1))
    (hfch : ee.chain_element_id = some a) (ht : es.time ≤ ee.time) :
    GenInv a c1 (es :: inner ++ [ee]) := by
  have hpair : GenInv a (a + 2) [es, ee] :=
    GenInv.pairEvents pk hpk hest heid hech hfet hfid hfch ht
  have happ : GenInv a c1 (inner ++ [es, ee]) :=
    hinner.append2 hpair (by omega) le_rfl le_rfl hinner.counter_le
      (Or.inr le_rfl)
  exact happ.perm List.perm_middle

theorem GenInv.loopBlock {ss ls le se : Event} {c1 : Nat}
    (hss : ss.event_type = .SECTION_START) (hssid : ss.id = some c1)
    (hssch : ss.chain_element_id = some c1)
    (hls : ls.event_type = .LOOP_START) (hlsid : ls.id = none)
    (hlsch : ls.chain_element_id = some c1)
    (hle : le.event_type = .LOOP_END) (hleid : le.id = none)
    (hlech : le.chain_element_id = some c1)
    (hse : se.event_type = .SECTION_END) (hseid : se.id = none)
    (hsech : se.chain_element_id = some c1)
    (hts : ss.time ≤ se.time) (htl : ls.time ≤ le.time) :
    GenInv c1 (c1 + 1) [ss, ls, le, se] := by
  have hmem4 : ∀ f ∈ [ss, ls, le, se], f = ss ∨ f = ls ∨ f = le ∨ f = se := by
    intro f hf
    simpa using hf
  constructor
  · omega
  · intro f hf i hi
    rcases hmem4 f hf with hfe | hfe | hfe | hfe <;> rw [hfe] at hi
    · rw [hssid] at hi
      simp only [Option.some.injEq] at hi
      omega
    · rw [hlsid] at hi
      exact absurd hi (by simp)
    · rw [hleid] at hi
      exact absurd hi (by simp)
    · rw [hseid] at hi
      exact absurd hi (by simp)
  · intro f hf i hi
    rcases hmem4 f hf with hfe | hfe | hfe | hfe <;> rw [hfe] at hi
    all_goals
      first
      | (rw [hssch] at hi; simp only [Option.some.injEq] at hi; omega)
      | (rw [hlsch] at hi; simp only [Option.some.injEq] at hi; omega)
      | (rw [hlech] at hi; simp only [Option.some.injEq] at hi; omega)
      | (rw [hsech] at hi; simp only [Option.some.injEq] at hi; omega)
  · simp [evIds, hssid, hlsid, hleid, hseid]
  · intro pk' k
    simp only [countKC_cons, countKC_nil, hss, hls, hle, hse, hssch, hlsch,
      hlech, hsech]
    cases pk' <;> by_cases hk : k = c1 <;> simp_all [startType, endType]
  · intro pk' k
    simp only [countKC_cons, countKC_nil, hss, hls, hle, hse, hssch, hlsch,
      hlech, hsech]
    cases pk' <;> by_cases hk : k = c1 <;> simp_all [startType, endType] <;>
      split <;> omega
  · intro pk' k f hf g hg hft hgt hfk hgk
    rcases hmem4 f hf with hfe | hfe | hfe | hfe <;>
      rcases hmem4 g hg with hge | hge | hge | hge <;>
      rw [hfe] at hft <;> rw [hge] at hgt <;> rw [hfe, hge] <;> cases pk' <;>
      first
      | (exfalso
         simp [hss, hls, hle, hse, startType, endType] at hft hgt
         done)
      | exact le_rfl
      | exact hts
      | exact htl
  · intro f hf hft
    rcases hmem4 f hf with hfe | hfe | hfe | hfe <;> rw [hfe] at hft ⊢
    · rw [hssid, hssch]
      exact ⟨rfl, rfl⟩
    · rw [hls] at hft
      exact absurd hft (by decide)
    · rw [hle] at hft
      exact absurd hft (by decide)
    · rw [hse] at hft
      exact absurd hft (by decide)
  · intro f hf hft
    rcases hmem4 f hf with hfe | hfe | hfe | hfe <;> rw [hfe] at hft ⊢
    · rw [hssid]; rfl
    · rw [hls] at hft
      exact absurd hft (by decide)
    · rw [hle] at hft
      exact absurd hft (by decide)
    · rw [hse] at hft
      exact absurd hft (by decide)
  · intro f hf hft
    rcases hmem4 f hf with hfe | hfe | hfe | hfe <;> rw [hfe] at hft ⊢
    · rw [hss] at hft
      exact absurd hft (by decide)
    · exact hlsid
    · exact hleid
    · rw [hse] at hft
      exact absurd hft (by decide)
  · intro f hf
    rcases hmem4 f hf with hfe | hfe | hfe | hfe <;> rw [hfe]
    · rw [hssch, hss]
      simp
      decide
    · rw [hlsch, hls]
      simp
      decide
    · rw [hlech, hle]
      simp
      decide
    · rw [hsech, hse]
      simp
      decide

theorem GenInv.loopWrap {c0 c1 : Nat} {inner : List Event}
    {ss ls le se : Event}
    (hinner : GenInv c0 c1 inner)
    (hss : ss.event_type = .SECTION_START) (hssid : ss.id = some c1)
    (hssch : ss.chain_element_id = some c1)
    (hls : ls.event_type = .LOOP_START) (hlsid : ls.id = none)
    (hlsch : ls.chain_element_id = some c1)
    (hle : le.event_type = .LOOP_END) (hleid : le.id = none)
    (hlech : le.chain_element_id = some c1)
    (hse : se.event_type = .SECTION_END) (hseid : se.id = none)
    (hsech : se.chain_element_id = some c1)
    (hts : ss.time ≤ se.time) (htl : ls.time ≤ le.time) :
    GenInv c0 (c1 + 1) ([ss, ls] ++ inner ++ [le, se]) := by
  have hblock : GenInv c1 (c1 + 1) [ss, ls, le, se] :=
    GenInv.loopBlock hss hssid hssch hls hlsid hlsch hle hleid hlech
      hse hseid hsech hts htl
  have happ : GenInv c0 (c1 + 1) (inner ++ [ss, ls, le, se]) :=
    hinner.append2 hblock le_rfl hinner.counter_le (by omega) le_rfl
      (Or.inl le_rfl)
  refine happ.perm ?_
  have step1 : (ls :: (inner ++ [le, se])).Perm (inner ++ ([ls, le, se])) :=
    List.perm_middle.symm
  have step2 : (ss :: ls :: (inner ++ [le, se])).Perm
      (ss :: (inner ++ [ls, le, se])) := step1.cons ss
  have step3 : (ss :: (inner ++ [ls, le, se])).Perm
      (inner ++ [ss, ls, le, se]) := List.perm_middle.symm
  have goal1 : ([ss, ls] ++ inner ++ [le, se]) =
      ss :: ls :: (inner ++ [le, se]) := rfl
  rw [show (inner ++ [ss, ls, le, se] : List Event) =
    inner ++ [ss, ls, le, se] from rfl]
  exact (goal1 ▸ (step2.trans step3)).symm

theorem SlotsInv.counter_le {c0 c1 : Nat} {slots : List (List Event)}
    (h : SlotsInv c0 c1 slots) : c0 ≤ c1 := by
  induction h with
  | nil => exact le_rfl
  | cons hsl _ IH => exact hsl.counter_le.trans IH

theorem SlotsInv.flatten_inv {c0 c1 : Nat} {slots : List (List Event)}
    (h : SlotsInv c0 c1 slots) : GenInv c0 c1 slots.flatten := by
  induction h with
  | nil => exact GenInv.nil _
  | @cons ca cb cc sl sls hsl hsls IH =>
    rw [List.flatten_cons]
    exact hsl.append2 IH le_rfl hsl.counter_le IH.counter_le le_rfl
      (Or.inl le_rfl)

theorem SlotsInv.append {c0 c1 c2 : Nat} {A B : List (List Event)}
    (hA : SlotsInv c0 c1 A) (hB : SlotsInv c1 c2 B) :
    SlotsInv c0 c2 (A ++ B) := by
  induction hA with
  | nil => exact hB
  | cons hsl _ IH => exact SlotsInv.cons hsl (IH hB)

theorem SlotsInv.replicate_nil (c : Nat) (n : Nat) :
    SlotsInv c c (List.replicate n ([] : List Event)) := by
  induction n with
  | zero => exact SlotsInv.nil c
  | succ k IH => exact SlotsInv.cons (GenInv.nil c) IH

theorem SlotsInv.map_core {c0 c1 : Nat} {slots : List (List Event)}
    {f : Event → Event} (hf : ∀ e, eventCore (f e) = eventCore e)
    (h : SlotsInv c0 c1 slots) :
    SlotsInv c0 c1 (slots.map (List.map f)) := by
  induction h with
  | nil => exact SlotsInv.nil _
  | cons hsl _ IH =>
    rw [List.map_cons]
    exact SlotsInv.cons (hsl.map_preserving hf) IH

theorem SlotsInv.congr_first {c0 c1 : Nat} {sl sl' : List Event}
    {sls : List (List Event)}
    (h : SlotsInv c0 c1 (sl :: sls))
    (hcore : sl'.map eventCore = sl.map eventCore) :
    SlotsInv c0 c1 (sl' :: sls) := by
  cases h with
  | cons hsl hsls => exact SlotsInv.cons (hsl.congr_core hcore) hsls

theorem triggerEvents_shape (tr : List (Nat × Nat)) (s len m : Int) :
    (∀ e ∈ (triggerEvents tr s len m).1,
      e.id = none ∧ e.chain_element_id = none ∧
      e.event_type = .DIGITAL_SIGNAL_STATE_CHANGE) ∧
    (∀ e ∈ (triggerEvents tr s len m).2.1,
      e.id = none ∧ e.chain_element_id = none ∧
      e.event_type = .DIGITAL_SIGNAL_STATE_CHANGE) := by
  induction tr generalizing m with
  | nil => simp [triggerEvents]
  | cons hd tl IH =>
    rw [triggerEvents]
    split
    · simp
    · obtain ⟨IH1, IH2⟩ := IH (m - 2)
      constructor
      · intro e he
        rcases List.mem_cons.mp he with rfl | he'
        · exact ⟨rfl, rfl, rfl⟩
        · exact IH1 e he'
      · intro e he
        rcases List.mem_cons.mp he with rfl | he'
        · exact ⟨rfl, rfl, rfl⟩
        · exact IH2 e he'

theorem triggerEvents_inert (tr : List (Nat × Nat)) (s len m : Int) (c : Nat) :
    GenInv c c (triggerEvents tr s len m).1 ∧
    GenInv c c (triggerEvents tr s len m).2.1 := by
  obtain ⟨h1, h2⟩ := triggerEvents_shape tr s len m
  constructor <;>
    [refine GenInv.inert c (fun e he => ?_);
     refine GenInv.inert c (fun e he => ?_)]
  · obtain ⟨ha, hb, hc⟩ := h1 e he
    exact ⟨ha, hb, by rw [hc]; decide, by rw [hc]; decide, by rw [hc]; decide⟩
  · obtain ⟨ha, hb, hc⟩ := h2 e he
    exact ⟨ha, hb, by rw [hc]; decide, by rw [hc]; decide, by rw [hc]; decide⟩

theorem prngSetupEvents_cases (pr : Option (Int × Int)) (s len m : Int)
    (c : Nat) :
    (prngSetupEvents pr s len m c = ([], [], m, c)) ∨
    (prngSetupEvents pr s len m c =
      ([{ event_type := .PRNG_SETUP, time := s, id := some c }],
       [{ event_type := .DROP_PRNG_SETUP, time := s + len,
          id := some (c + 1) }], m - 2, c + 2)) := by
  unfold prngSetupEvents
  cases pr with
  | none => exact Or.inl rfl
  | some v =>
    by_cases hm : m > 0
    · right
      rw [if_pos hm]
    · left
      rw [if_neg hm]

theorem emptyBranchDelays_inv (signals : List Nat) (s len : Int) (m : Int)
    (c : Nat) (hlen : 0 ≤ len) :
    GenInv c (emptyBranchDelays signals s len m c).2
      (emptyBranchDelays signals s len m c).1 := by
  induction signals generalizing m c with
  | nil => exact GenInv.nil c
  | cons hd tl IH =>
    rw [emptyBranchDelays]
    split
    · exact GenInv.nil c
    · have hpair : GenInv c (c + 2)
          [{ event_type := .DELAY_START, time := s, id := some c,
             chain_element_id := some c },
           { event_type := .DELAY_END, time := s + len, id := some (c + 1),
             chain_element_id := some c }] :=
        GenInv.pairEvents PairKind.delayPair (by decide) rfl rfl rfl
          rfl rfl rfl (by show s ≤ s + len; omega)
      have hrest := IH (m - 2) (c + 2)
      have := hpair.append2 hrest le_rfl (by omega) hrest.counter_le le_rfl
        (Or.inl le_rfl)
      exact this

theorem oscStepEvents_inv (steps : List ((Nat × Nat) × Int)) (s len : Int)
    (c : Nat) (hlen : 0 ≤ len) :
    GenInv c (oscStepEvents steps s len c).2 (oscStepEvents steps s len c).1 := by
  induction steps generalizing c with
  | nil => exact GenInv.nil c
  | cons hd tl IH =>
    rw [oscStepEvents]
    have hpair : GenInv c (c + 2)
        [{ event_type := .SET_OSCILLATOR_FREQUENCY_START, time := s,
           id := some c, chain_element_id := some c },
         { event_type := .SET_OSCILLATOR_FREQUENCY_END, time := s + len,
           id := some (c + 1), chain_element_id := some c }] :=
      GenInv.pairEvents PairKind.osc (by decide) rfl rfl rfl
        rfl rfl rfl (by show s ≤ s + len; omega)
    have hrest := IH (c + 2)
    exact hpair.append2 hrest le_rfl (by omega) hrest.counter_le le_rfl
      (Or.inl le_rfl)

theorem hwPhaseResetEvents_inv (devices : List (Nat × Int)) (s : Int)
    (c : Nat) :
    GenInv c (hwPhaseResetEvents devices s c).2
      (hwPhaseResetEvents devices s c).1 := by
  induction devices generalizing c with
  | nil => exact GenInv.nil c
  | cons hd tl IH =>
    rw [hwPhaseResetEvents]
    have hone : GenInv c (c + 1)
        [{ event_type := .RESET_HW_OSCILLATOR_PHASE, time := s,
           id := some c }] :=
      GenInv.singletonId rfl rfl
        (by show EventType.RESET_HW_OSCILLATOR_PHASE ∉ noIdKinds; decide)
        (by show EventType.RESET_HW_OSCILLATOR_PHASE ∉ startIdKinds; decide)
        (by show EventType.RESET_HW_OSCILLATOR_PHASE ∉ chainKinds; decide)
    have hrest := IH (c + 1)
    exact hone.append2 hrest le_rfl (by omega) hrest.counter_le le_rfl
      (Or.inl le_rfl)

theorem parameterSetEvents_inert (sweeps : List Nat) (s : Int) (c : Nat) :
    GenInv c c (parameterSetEvents sweeps s) := by
  refine GenInv.inert c (fun e he => ?_)
  obtain ⟨_, _, rfl⟩ := List.mem_map.mp he
  refine ⟨rfl, rfl, ?_, ?_, ?_⟩
  · show EventType.PARAMETER_SET ∉ idKinds
    decide
  · show EventType.PARAMETER_SET ∉ startIdKinds
    decide
  · show EventType.PARAMETER_SET ∉ chainKinds
    decide

theorem prngSampleDrawEvents_inert (ps : Option Nat) (s : Int) (c : Nat) :
    GenInv c c (prngSampleDrawEvents ps s) := by
  refine GenInv.inert c (fun e he => ?_)
  unfold prngSampleDrawEvents at he
  cases ps with
  | none => exact absurd he (List.not_mem_nil e)
  | some v =>
    rw [List.mem_singleton.mp he]
    refine ⟨rfl, rfl, ?_, ?_, ?_⟩
    · show EventType.DRAW_PRNG_SAMPLE ∉ idKinds
      decide
    · show EventType.DRAW_PRNG_SAMPLE ∉ startIdKinds
      decide
    · show EventType.DRAW_PRNG_SAMPLE ∉ chainKinds
      decide

theorem prngSampleDropEvents_inert (ps : Option Nat) (s : Int) (c : Nat) :
    GenInv c c (prngSampleDropEvents ps s) := by
  refine GenInv.inert c (fun e he => ?_)
  unfold prngSampleDropEvents at he
  cases ps with
  | none => exact absurd he (List.not_mem_nil e)
  | some v =>
    rw [List.mem_singleton.mp he]
    refine ⟨rfl, rfl, ?_, ?_, ?_⟩
    · show EventType.DROP_PRNG_SAMPLE ∉ idKinds
      decide
    · show EventType.DROP_PRNG_SAMPLE ∉ startIdKinds
      decide
    · show EventType.DROP_PRNG_SAMPLE ∉ chainKinds
      decide

theorem childrenVisitGo_inv (genf : GenFun) (children : List IR)
    (starts : List Int) (s : Int) (m : Int) (c : Nat) (x : Bool)
    (hgen : ∀ child ∈ children, ∀ s' m' c',
      GenInv c' (genf child s' m' c' x).2 (genf child s' m' c' x).1) :
    SlotsInv c (childrenVisitGo genf children starts s m c x).2
      (childrenVisitGo genf children starts s m c x).1 := by
  induction children generalizing starts m c with
  | nil =>
    cases starts <;> exact SlotsInv.nil c
  | cons child rest IH =>
    cases starts with
    | nil => exact SlotsInv.nil c
    | cons st sts =>
      rw [childrenVisitGo]
      split
      · exact SlotsInv.nil c
      · have h1 := hgen child (List.mem_cons_self _ _) (s + st) m c
        have h2 := IH sts (m - ((genf child (s + st) m c x).1.length : Int))
          (genf child (s + st) m c x).2
          (fun ch hch => hgen ch (List.mem_cons_of_mem _ hch))
        exact SlotsInv.cons h1 h2

theorem wrapPairs_inv (children : List IR) (starts : List Int)
    (slots : List (List Event)) (s : Int) (a : Nat)
    (hwf : ∀ chi ∈ children, 0 ≤ irLength chi) :
    GenInv a (wrapSlots children starts slots s a).2
      (wrapPairs children starts slots s a) := by
  induction children generalizing starts slots a with
  | nil =>
    exact GenInv.nil a
  | cons ch chs IH =>
    cases slots with
    | nil =>
      exact GenInv.nil a
    | cons sl sls =>
      rw [wrapSlots, wrapPairs]
      by_cases hsec : isSectionIR ch
      · rw [if_pos hsec, if_pos hsec]
        have hpair : GenInv a (a + 2)
            [{ event_type := .SUBSECTION_START, time := starts.headD 0 + s,
               id := some a, chain_element_id := some a },
             { event_type := .SUBSECTION_END,
               time := starts.headD 0 + irLength ch + s,
               id := some (a + 1), chain_element_id := some a }] :=
          GenInv.pairEvents PairKind.subsec (by decide) rfl rfl rfl
            rfl rfl rfl
            (by show starts.headD 0 + s ≤ starts.headD 0 + irLength ch + s
                have := hwf ch (List.mem_cons_self _ _)
                omega)
        have hrest := IH starts.tail sls (a + 2)
          (fun chi hchi => hwf chi (List.mem_cons_of_mem _ hchi))
        simp only []
        exact hpair.append2 hrest le_rfl (by omega) hrest.counter_le le_rfl
          (Or.inl le_rfl)
      · rw [if_neg hsec, if_neg hsec]
        exact IH starts.tail sls a
          (fun chi hchi => hwf chi (List.mem_cons_of_mem _ hchi))

theorem wrapSlots_flatten_perm (children : List IR) (starts : List Int)
    (slots : List (List Event)) (s : Int) (a : Nat) :
    ((wrapSlots children starts slots s a).1.flatten).Perm
      (slots.flatten ++ wrapPairs children starts slots s a) := by
  induction children generalizing starts slots a with
  | nil =>
    show (slots.flatten).Perm (slots.flatten ++ [])
    simp
  | cons ch chs IH =>
    cases slots with
    | nil =>
      show (List.flatten []).Perm (List.flatten [] ++ [])
      simp
    | cons sl sls =>
      rw [wrapSlots, wrapPairs]
      by_cases hsec : isSectionIR ch
      · rw [if_pos hsec, if_pos hsec]
        have hIH := IH starts.tail sls (a + 2)
        rw [List.perm_iff_count] at hIH ⊢
        intro e
        have h1 := hIH e
        simp [List.count_append, List.count_cons] at h1 ⊢
        omega
      · rw [if_neg hsec, if_neg hsec]
        have hIH := IH starts.tail sls a
        rw [List.perm_iff_count] at hIH ⊢
        intro e
        have h1 := hIH e
        simp [List.count_append, List.count_cons] at h1 ⊢
        omega

theorem _children_eventsGo_inv (genf : GenFun) (children : List IR)
    (children_start : List Int) (flag : Bool) (s : Int) (m : Int) (c : Nat)
    (x : Bool)
    (hgen : ∀ child ∈ children, ∀ s' m' c',
      GenInv c' (genf child s' m' c' x).2 (genf child s' m' c' x).1)
    (hwf : ∀ chi ∈ children, 0 ≤ irLength chi) :
    GenInv c (_children_eventsGo genf children children_start flag s m c x).2
      ((_children_eventsGo genf children children_start flag s m c x).1.flatten)
    := by
  unfold _children_eventsGo
  set m2 := (if flag then m - 2 * (children.length : Int) else m) with hm2
  set r := childrenVisitGo genf children children_start s m2 c x with hr
  have hvis : SlotsInv c r.2 r.1 :=
    childrenVisitGo_inv genf children children_start s m2 c x hgen
  have hslots : SlotsInv c r.2
      (r.1 ++ List.replicate (children.length - r.1.length) []) :=
    hvis.append (SlotsInv.replicate_nil r.2 _)
  have hflat : GenInv c r.2
      (r.1 ++ List.replicate (children.length - r.1.length) []).flatten :=
    hslots.flatten_inv
  by_cases hflag : flag
  · simp only [hflag, if_true]
    set slots := r.1 ++ List.replicate (children.length - r.1.length) []
      with hsl
    have hpairs : GenInv r.2
        (wrapSlots children children_start slots s r.2).2
        (wrapPairs children children_start slots s r.2) :=
      wrapPairs_inv children children_start slots s r.2 hwf
    have happ := hflat.append2 hpairs le_rfl hflat.counter_le
      hpairs.counter_le le_rfl (Or.inl le_rfl)
    exact happ.perm
      (wrapSlots_flatten_perm children children_start slots s r.2).symm
  · simp only [hflag, if_false]
    exact hflat

theorem genSectionCoreGo_inv (genf : GenFun) (n : Nat) (len : Int)
    (tr : List (Nat × Nat)) (pr : Option (Int × Int)) (cs : List Int)
    (ch : List IR) (s : Int) (m : Int) (c : Nat) (x : Bool)
    (hgen : ∀ child ∈ ch, ∀ s' m' c',
      GenInv c' (genf child s' m' c' x).2 (genf child s' m' c' x).1)
    (hwf : ∀ chi ∈ ch, 0 ≤ irLength chi) (hlen : 0 ≤ len) :
    GenInv c (genSectionCoreGo genf n len tr pr cs ch s m c x).2
      (genSectionCoreGo genf n len tr pr cs ch s m c x).1 := by
  unfold genSectionCoreGo
  dsimp only
  rcases htv : triggerEvents tr s len (m - 2) with ⟨tset, tclr, m2⟩
  dsimp only
  have ht1 : ∀ c' : Nat, GenInv c' c' tset := by
    intro c'
    have h := (triggerEvents_inert tr s len (m - 2) c').1
    rw [htv] at h
    exact h
  have ht2 : ∀ c' : Nat, GenInv c' c' tclr := by
    intro c'
    have h := (triggerEvents_inert tr s len (m - 2) c').2
    rw [htv] at h
    exact h
  rcases prngSetupEvents_cases pr s len m2 c with hpc | hpc <;>
    rw [hpc] <;> dsimp only
  · -- no PRNG setup events
    rcases hcv : _children_eventsGo genf ch cs true s m2 c x with ⟨cev, c3⟩
    dsimp only
    have hflat : GenInv c c3 cev.flatten := by
      have h := _children_eventsGo_inv genf ch cs true s m2 c x hgen hwf
      rw [hcv] at h
      exact h
    have h1 : GenInv c c3 (cev.flatten ++ tclr) :=
      hflat.append2 (ht2 c3) le_rfl hflat.counter_le le_rfl le_rfl
        (Or.inl le_rfl)
    have h2 : GenInv c c3 (tset ++ (cev.flatten ++ tclr)) :=
      (ht1 c).append2 h1 le_rfl le_rfl h1.counter_le le_rfl (Or.inl le_rfl)
    have h3 : GenInv c (c3 + 2)
        (({ event_type := .SECTION_START, time := s, id := some c3,
            chain_element_id := some c3 } : Event) ::
         (tset ++ (cev.flatten ++ tclr)) ++
         [{ event_type := .SECTION_END, time := s + len,
            id := some (c3 + 1), chain_element_id := some c3 }]) :=
      GenInv.wrapAfter PairKind.sec (by decide) h2 rfl rfl rfl rfl rfl rfl
        (by show s ≤ s + len; omega)
    refine h3.perm ?_
    apply List.Perm.of_eq
    simp [List.append_assoc]
  · -- PRNG setup present
    rcases hcv : _children_eventsGo genf ch cs true s (m2 - 2) (c + 2) x
      with ⟨cev, c3⟩
    dsimp only
    have hflat : GenInv (c + 2) c3 cev.flatten := by
      have h := _children_eventsGo_inv genf ch cs true s (m2 - 2) (c + 2) x
        hgen hwf
      rw [hcv] at h
      exact h
    have hsetup : GenInv c (c + 1)
        [({ event_type := .PRNG_SETUP, time := s, id := some c } : Event)] :=
      GenInv.singletonId rfl rfl
        (by show EventType.PRNG_SETUP ∉ noIdKinds; decide)
        (by show EventType.PRNG_SETUP ∉ startIdKinds; decide)
        (by show EventType.PRNG_SETUP ∉ chainKinds; decide)
    have hdrop : GenInv (c + 1) (c + 2)
        [({ event_type := .DROP_PRNG_SETUP, time := s + len,
            id := some (c + 1) } : Event)] :=
      GenInv.singletonId rfl rfl
        (by show EventType.DROP_PRNG_SETUP ∉ noIdKinds; decide)
        (by show EventType.DROP_PRNG_SETUP ∉ startIdKinds; decide)
        (by show EventType.DROP_PRNG_SETUP ∉ chainKinds; decide)
    have h1 : GenInv (c + 1) (c + 2)
        ([({ event_type := .DROP_PRNG_SETUP, time := s + len,
             id := some (c + 1) } : Event)] ++ tclr) :=
      hdrop.append2 (ht2 (c + 2)) le_rfl (by omega) le_rfl le_rfl
        (Or.inl le_rfl)
    have h2 : GenInv (c + 1) c3 (cev.flatten ++
        ([({ event_type := .DROP_PRNG_SETUP, time := s + len,
             id := some (c + 1) } : Event)] ++ tclr)) :=
      hflat.append2 h1 (by omega) le_rfl le_rfl
        (le_trans (by omega) hflat.counter_le) (Or.inr le_rfl)
    have h3 : GenInv c c3
        ([({ event_type := .PRNG_SETUP, time := s, id := some c } : Event)] ++
         (cev.flatten ++
          ([({ event_type := .DROP_PRNG_SETUP, time := s + len,
               id := some (c + 1) } : Event)] ++ tclr))) :=
      hsetup.append2 h2 le_rfl (by omega) h2.counter_le le_rfl (Or.inl le_rfl)
    have h4 : GenInv c c3 (tset ++
        ([({ event_type := .PRNG_SETUP, time := s, id := some c } : Event)] ++
         (cev.flatten ++
          ([({ event_type := .DROP_PRNG_SETUP, time := s + len,
               id := some (c + 1) } : Event)] ++ tclr)))) :=
      (ht1 c).append2 h3 le_rfl le_rfl h3.counter_le le_rfl (Or.inl le_rfl)
    have h5 : GenInv c (c3 + 2)
        (({ event_type := .SECTION_START, time := s, id := some c3,
            chain_element_id := some c3 } : Event) ::
         (tset ++
          ([({ event_type := .PRNG_SETUP, time := s, id := some c } : Event)] ++
           (cev.flatten ++
            ([({ event_type := .DROP_PRNG_SETUP, time := s + len,
                 id := some (c + 1) } : Event)] ++ tclr)))) ++
         [{ event_type := .SECTION_END, time := s + len,
            id := some (c3 + 1), chain_element_id := some c3 }]) :=
      GenInv.wrapAfter PairKind.sec (by decide) h4 rfl rfl rfl rfl rfl rfl
        (by show s ≤ s + len; omega)
    refine h5.perm ?_
    apply List.Perm.of_eq
    simp [List.append_assoc]

theorem genLoopIterationCoreGo_inv (genf : GenFun) (n : Nat) (len : Int)
    (iteration : Nat) (num_repeats : Nat) (sweeps : List Nat)
    (prng_sample : Option Nat) (shadow : Bool) (cs : List Int)
    (ch : List IR) (s : Int) (m : Int) (c : Nat) (x : Bool)
    (hgen : ∀ child ∈ ch, ∀ s' m' c',
      GenInv c' (genf child s' m' c' x).2 (genf child s' m' c' x).1)
    (hwf : ∀ chi ∈ ch, 0 ≤ irLength chi) :
    GenInv c (genLoopIterationCoreGo genf n len iteration num_repeats sweeps
        prng_sample shadow cs ch s m c x).2
      (genLoopIterationCoreGo genf n len iteration num_repeats sweeps
        prng_sample shadow cs ch s m c x).1 := by
  unfold genLoopIterationCoreGo
  dsimp only
  rcases hcv : _children_eventsGo genf ch cs true s
      ((if iteration == 0 then m - sweeps.length - 1 else m - sweeps.length)
        - 3) c x with ⟨cev, c1⟩
  dsimp only
  have hflat : GenInv c c1 cev.flatten := by
    have h := _children_eventsGo_inv genf ch cs true s
      ((if iteration == 0 then m - sweeps.length - 1 else m - sweeps.length)
        - 3) c x hgen hwf
    rw [hcv] at h
    exact h
  have hlse : GenInv c1 c1
      [({ event_type := .LOOP_STEP_END, time := s + len,
          nesting_level := some 0 } : Event)] := by
    refine GenInv.inert c1 (fun e he => ?_)
    rw [List.mem_singleton.mp he]
    refine ⟨rfl, rfl, ?_, ?_, ?_⟩
    · show EventType.LOOP_STEP_END ∉ idKinds
      decide
    · show EventType.LOOP_STEP_END ∉ startIdKinds
      decide
    · show EventType.LOOP_STEP_END ∉ chainKinds
      decide
  have hite : GenInv c1 c1
      (if iteration == 0 then
        [({ event_type := .LOOP_ITERATION_END, time := s + len,
            nesting_level := some 0 } : Event)]
       else []) := by
    split
    · refine GenInv.inert c1 (fun e he => ?_)
      rw [List.mem_singleton.mp he]
      refine ⟨rfl, rfl, ?_, ?_, ?_⟩
      · show EventType.LOOP_ITERATION_END ∉ idKinds
        decide
      · show EventType.LOOP_ITERATION_END ∉ startIdKinds
        decide
      · show EventType.LOOP_ITERATION_END ∉ chainKinds
        decide
    · exact GenInv.inert c1 (fun e he => absurd he (List.not_mem_nil e))
  have hdrop : GenInv c1 c1 (prngSampleDropEvents prng_sample (s + len)) :=
    prngSampleDropEvents_inert prng_sample (s + len) c1
  have htail1 : GenInv c1 c1 ((prngSampleDropEvents prng_sample (s + len)) ++
      (if iteration == 0 then
        [({ event_type := .LOOP_ITERATION_END, time := s + len,
            nesting_level := some 0 } : Event)]
       else [])) :=
    hdrop.append2 hite le_rfl le_rfl le_rfl le_rfl (Or.inl le_rfl)
  have htail : GenInv c1 c1
      ([({ event_type := .LOOP_STEP_END, time := s + len,
           nesting_level := some 0 } : Event)] ++
       ((prngSampleDropEvents prng_sample (s + len)) ++
        (if iteration == 0 then
          [({ event_type := .LOOP_ITERATION_END, time := s + len,
              nesting_level := some 0 } : Event)]
         else []))) :=
    hlse.append2 htail1 le_rfl le_rfl le_rfl le_rfl (Or.inl le_rfl)
  have h1 : GenInv c c1 (cev.flatten ++
      ([({ event_type := .LOOP_STEP_END, time := s + len,
           nesting_level := some 0 } : Event)] ++
       ((prngSampleDropEvents prng_sample (s + len)) ++
        (if iteration == 0 then
          [({ event_type := .LOOP_ITERATION_END, time := s + len,
              nesting_level := some 0 } : Event)]
         else [])))) :=
    hflat.append2 htail le_rfl hflat.counter_le le_rfl le_rfl (Or.inl le_rfl)
  have h2 : GenInv c c1 ((prngSampleDrawEvents prng_sample s) ++ (cev.flatten ++
      ([({ event_type := .LOOP_STEP_END, time := s + len,
           nesting_level := some 0 } : Event)] ++
       ((prngSampleDropEvents prng_sample (s + len)) ++
        (if iteration == 0 then
          [({ event_type := .LOOP_ITERATION_END, time := s + len,
              nesting_level := some 0 } : Event)]
         else []))))) :=
    (prngSampleDrawEvents_inert prng_sample s c).append2 h1 le_rfl le_rfl
      h1.counter_le le_rfl (Or.inl le_rfl)
  have h3 : GenInv c c1 ((parameterSetEvents sweeps s) ++
      ((prngSampleDrawEvents prng_sample s) ++ (cev.flatten ++
      ([({ event_type := .LOOP_STEP_END, time := s + len,
           nesting_level := some 0 } : Event)] ++
       ((prngSampleDropEvents prng_sample (s + len)) ++
        (if iteration == 0 then
          [({ event_type := .LOOP_ITERATION_END, time := s + len,
              nesting_level := some 0 } : Event)]
         else [])))))) :=
    (parameterSetEvents_inert sweeps s c).append2 h2 le_rfl le_rfl
      h2.counter_le le_rfl (Or.inl le_rfl)
  have h4 : GenInv c c1
      ([({ event_type := .LOOP_STEP_START, time := s,
           nesting_level := some 0 } : Event)] ++
       ((parameterSetEvents sweeps s) ++
        ((prngSampleDrawEvents prng_sample s) ++ (cev.flatten ++
        ([({ event_type := .LOOP_STEP_END, time := s + len,
             nesting_level := some 0 } : Event)] ++
         ((prngSampleDropEvents prng_sample (s + len)) ++
          (if iteration == 0 then
            [({ event_type := .LOOP_ITERATION_END, time := s + len,
                nesting_level := some 0 } : Event)]
           else []))))))) := by
    refine (GenInv.inert c (fun e he => ?_)).append2 h3 le_rfl le_rfl
      h3.counter_le le_rfl (Or.inl le_rfl)
    rw [List.mem_singleton.mp he]
    refine ⟨rfl, rfl, ?_, ?_, ?_⟩
    · show EventType.LOOP_STEP_START ∉ idKinds
      decide
    · show EventType.LOOP_STEP_START ∉ startIdKinds
      decide
    · show EventType.LOOP_STEP_START ∉ chainKinds
      decide
  have hev : GenInv c c1
      (({ event_type := .LOOP_STEP_START, time := s,
          nesting_level := some 0 } : Event) ::
       parameterSetEvents sweeps s ++ prngSampleDrawEvents prng_sample s ++
       cev.flatten ++
       [{ event_type := .LOOP_STEP_END, time := s + len,
          nesting_level := some 0 }] ++
       prngSampleDropEvents prng_sample (s + len) ++
       (if iteration == 0 then
         [({ event_type := .LOOP_ITERATION_END, time := s + len,
             nesting_level := some 0 } : Event)]
        else [])) := by
    refine h4.perm ?_
    apply List.Perm.of_eq
    simp [List.append_assoc]
  split
  · exact hev.map_preserving (fun e => eventCore_setShadow e)
  · exact hev

theorem shadowIterationsGo_inv (genf : GenFun) (pn : Nat) (plen : Int)
    (nr : Nat) (sweeps : List Nat) (ps : Option Nat) (cs : List Int)
    (ch : List IR) (x : Bool)
    (hgen : ∀ child ∈ ch, ∀ s' m' c',
      GenInv c' (genf child s' m' c' x).2 (genf child s' m' c' x).1)
    (hwf : ∀ chi ∈ ch, 0 ≤ irLength chi) :
    ∀ (r idx : Nat) (prevLen istart m : Int) (c : Nat),
      SlotsInv c (shadowIterationsGo genf pn plen nr sweeps ps cs ch r idx
          prevLen istart m c x).2
        (shadowIterationsGo genf pn plen nr sweeps ps cs ch r idx
          prevLen istart m c x).1 := by
  intro r
  induction r with
  | zero =>
    intro idx prevLen istart m c
    exact SlotsInv.nil c
  | succ r IH =>
    intro idx prevLen istart m c
    unfold shadowIterationsGo
    dsimp only
    split
    · exact SlotsInv.nil c
    · rcases hev : genLoopIterationCoreGo genf pn plen idx nr sweeps ps true
        cs ch (istart + plen) (m - prevLen) c x with ⟨evs, c'⟩
      dsimp only
      rcases hrest : shadowIterationsGo genf pn plen nr sweeps ps cs ch r
        (idx + 1) (evs.length : Int) (istart + plen) (m - prevLen) c' x
        with ⟨rest, c''⟩
      dsimp only
      have h1 : GenInv c c' evs := by
        have h := genLoopIterationCoreGo_inv genf pn plen idx nr sweeps ps
          true cs ch (istart + plen) (m - prevLen) c x hgen hwf
        rw [hev] at h
        exact h
      have h2 : SlotsInv c' c'' rest := by
        have h := IH (idx + 1) (evs.length : Int) (istart + plen)
          (m - prevLen) c'
        rw [hrest] at h
        exact h
      exact SlotsInv.cons h1 h2

theorem genShadowExpansionGo_inv (genf : GenFun) (child : IR)
    (ev0 : List Event) (iterations : Nat) (s : Int) (m : Int)
    (c00 c0 : Nat) (x : Bool) (hev0 : GenInv c00 c0 ev0)
    (hgen : ∀ gch ∈ irChildren child, ∀ s' m' c',
      GenInv c' (genf gch s' m' c' x).2 (genf gch s' m' c' x).1)
    (hwf : ∀ gch ∈ irChildren child, 0 ≤ irLength gch) :
    SlotsInv c00 (genShadowExpansionGo genf child ev0 iterations s m c0 x).2
      (genShadowExpansionGo genf child ev0 iterations s m c0 x).1 := by
  unfold genShadowExpansionGo
  cases child with
  | LoopIterationIR cname clen citer cnum csweeps cprng cshadow ccs cch =>
    dsimp only
    rcases hsh : shadowIterationsGo genf cname clen cnum csweeps cprng ccs cch
      (iterations - 1) 1 (ev0.length : Int) s m c0 x with ⟨shadows, c2⟩
    dsimp only
    have h2 : SlotsInv c0 c2 shadows := by
      have h := shadowIterationsGo_inv genf cname clen cnum csweeps cprng ccs
        cch x (fun gch hm => hgen gch hm) (fun gch hm => hwf gch hm)
        (iterations - 1) 1 (ev0.length : Int) s m c0
      rw [hsh] at h
      exact h
    exact SlotsInv.cons hev0 h2
  | RootScheduleIR a b ch => exact SlotsInv.cons hev0 (SlotsInv.nil _)
  | SectionIR a b d e f g => exact SlotsInv.cons hev0 (SlotsInv.nil _)
  | MatchIR a b d e f g h i j k => exact SlotsInv.cons hev0 (SlotsInv.nil _)
  | CaseIR a b d e f g h => exact SlotsInv.cons hev0 (SlotsInv.nil _)
  | EmptyBranchIR a b d e => exact SlotsInv.cons hev0 (SlotsInv.nil _)
  | LoopIR a b d e f g => exact SlotsInv.cons hev0 (SlotsInv.nil _)
  | PulseIR a b d e f => exact SlotsInv.cons hev0 (SlotsInv.nil _)
  | AcquireGroupIR a b d => exact SlotsInv.cons hev0 (SlotsInv.nil _)
  | OscillatorFrequencyStepIR a b d e => exact SlotsInv.cons hev0 (SlotsInv.nil _)
  | PhaseResetIR a b => exact SlotsInv.cons hev0 (SlotsInv.nil _)
  | PrecompClearIR => exact SlotsInv.cons hev0 (SlotsInv.nil _)
  | ReserveIR => exact SlotsInv.cons hev0 (SlotsInv.nil _)

theorem genLoopCompressedSlotsGo_inv (genf : GenFun) (children : List IR)
    (cs : List Int) (iterations : Nat) (s : Int) (m : Int) (c : Nat)
    (x : Bool)
    (hgen : ∀ child ∈ children, ∀ s' m' c',
      GenInv c' (genf child s' m' c' x).2 (genf child s' m' c' x).1)
    (hgen2 : ∀ child ∈ children, ∀ gch ∈ irChildren child, ∀ s' m' c',
      GenInv c' (genf gch s' m' c' x).2 (genf gch s' m' c' x).1)
    (hwf2 : ∀ child ∈ children, ∀ gch ∈ irChildren child, 0 ≤ irLength gch) :
    SlotsInv c (genLoopCompressedSlotsGo genf children cs iterations s m c x).2
      (genLoopCompressedSlotsGo genf children cs iterations s m c x).1 := by
  unfold genLoopCompressedSlotsGo
  cases children with
  | nil => cases cs <;> exact SlotsInv.nil c
  | cons child rest =>
    cases cs with
    | nil => exact SlotsInv.nil c
    | cons st0 rest' =>
      dsimp only
      rcases hev : genf child (s + st0) m c x with ⟨ev0, c0⟩
      dsimp only
      have h0 : GenInv c c0 ev0 := by
        have h := hgen child (List.mem_cons_self child rest) (s + st0) m c
        rw [hev] at h
        exact h
      have h1 : GenInv c c0 (setLastCompressed ev0) :=
        h0.congr_core (map_core_setLastCompressed ev0)
      split
      · exact genShadowExpansionGo_inv genf child (setLastCompressed ev0)
          iterations s m c c0 x h1
          (hgen2 child (List.mem_cons_self child rest))
          (hwf2 child (List.mem_cons_self child rest))
      · exact SlotsInv.cons h1 (SlotsInv.nil _)

theorem WFIR.len_nonneg {ir : IR} (h : WFIR ir) : 0 ≤ irLength ir := by
  cases h with
  | mk _ h1 _ _ => exact h1

theorem WFIR.offset_ok {ir : IR} (h : WFIR ir) : irOffsetOK ir := by
  cases h with
  | mk _ _ h2 _ => exact h2

theorem WFIR.child_wf {ir : IR} (h : WFIR ir) :
    ∀ chi ∈ irChildren ir, WFIR chi := by
  cases h with
  | mk _ _ _ h3 => exact h3

theorem gen_depth_inv (d : Nat) :
    ∀ (ir : IR) (s m : Int) (c : Nat) (x : Bool), WFIR ir →
      GenInv c (generate_event_list_depth d ir s m c x).2
        (generate_event_list_depth d ir s m c x).1 := by
  induction d with
  | zero =>
    intro ir s m c x _
    exact GenInv.nil c
  | succ d IH =>
    intro ir s m c x hwf
    have hwfc := hwf.child_wf
    cases ir with
    | RootScheduleIR a cs ch =>
      simp only [generate_event_list_depth]
      try dsimp only
      rcases hr : _children_eventsGo
          (fun ir' s' m' c' x' => generate_event_list_depth d ir' s' m' c' x')
          ch cs false s (m - 2) c x with ⟨slots, c'⟩
      try dsimp only
      have h := _children_eventsGo_inv
        (fun ir' s' m' c' x' => generate_event_list_depth d ir' s' m' c' x')
        ch cs false s (m - 2) c x
        (fun child hm s' m' c' => IH child s' m' c' x (hwfc child hm))
        (fun chi hm => (hwfc chi hm).len_nonneg)
      rw [hr] at h
      exact h
    | SectionIR n len tr pr cs ch =>
      simp only [generate_event_list_depth]
      try dsimp only
      exact genSectionCoreGo_inv _ n len tr pr cs ch s m c x
        (fun child hm s' m' c' => IH child s' m' c' x (hwfc child hm))
        (fun chi hm => (hwfc chi hm).len_nonneg) hwf.len_nonneg
    | MatchIR n len tr pr a b e f cs ch =>
      simp only [generate_event_list_depth]
      try dsimp only
      exact genSectionCoreGo_inv _ n len tr pr cs ch s m c x
        (fun child hm s' m' c' => IH child s' m' c' x (hwfc child hm))
        (fun chi hm => (hwfc chi hm).len_nonneg) hwf.len_nonneg
    | CaseIR n len tr pr st cs ch =>
      simp only [generate_event_list_depth]
      try dsimp only
      rcases hr : genSectionCoreGo
          (fun ir' s' m' c' x' => generate_event_list_depth d ir' s' m' c' x')
          n len tr pr cs ch s m c x with ⟨evs, c'⟩
      try dsimp only
      have h := genSectionCoreGo_inv
        (fun ir' s' m' c' x' => generate_event_list_depth d ir' s' m' c' x')
        n len tr pr cs ch s m c x
        (fun child hm s' m' c' => IH child s' m' c' x (hwfc child hm))
        (fun chi hm => (hwfc chi hm).len_nonneg) hwf.len_nonneg
      rw [hr] at h
      exact h.map_preserving (fun e => eventCore_setState st e)
    | EmptyBranchIR n len st sigs =>
      have hlen : (0 : Int) ≤ len := hwf.len_nonneg
      simp only [generate_event_list_depth]
      try dsimp only
      split
      · exact GenInv.pairEvents PairKind.sec (by decide) rfl rfl rfl rfl rfl
          rfl (by show s ≤ s + len; omega)
      · rcases hr : emptyBranchDelays sigs s len m (c + 2) with ⟨delays, c''⟩
        try dsimp only
        have h : GenInv (c + 2) c'' delays := by
          have h0 := emptyBranchDelays_inv sigs s len m (c + 2) hlen
          rw [hr] at h0
          exact h0
        exact GenInv.wrapBefore PairKind.sec (by decide) h rfl rfl rfl rfl
          rfl rfl (by show s ≤ s + len; omega)
    | LoopIR n len compressed iterations cs ch =>
      have hlen : (0 : Int) ≤ len := hwf.len_nonneg
      simp only [generate_event_list_depth]
      try dsimp only
      cases compressed with
      | false =>
        try dsimp only [Bool.not_false, reduceIte]
        rcases hr : _children_eventsGo
            (fun ir' s' m' c' x' =>
              generate_event_list_depth d ir' s' m' c' x')
            ch cs false s (m - 3) c x with ⟨slots0, c1⟩
        try dsimp only
        have h := _children_eventsGo_inv
          (fun ir' s' m' c' x' => generate_event_list_depth d ir' s' m' c' x')
          ch cs false s (m - 3) c x
          (fun child hm s' m' c' => IH child s' m' c' x (hwfc child hm))
          (fun chi hm => (hwfc chi hm).len_nonneg)
        rw [hr] at h
        have h2 : GenInv c c1 (slots0.flatten.map bumpNesting) :=
          h.map_preserving (fun e => eventCore_bumpNesting e)
        rw [List.map_flatten] at h2
        exact GenInv.loopWrap h2 rfl rfl rfl rfl rfl rfl rfl rfl rfl rfl
          rfl rfl (by show s ≤ s + len; omega) (by show s ≤ s + len; omega)
      | true =>
        try dsimp only [Bool.not_true, reduceIte]
        rcases hr : genLoopCompressedSlotsGo
            (fun ir' s' m' c' x' =>
              generate_event_list_depth d ir' s' m' c' x')
            ch cs iterations s (m - 3) c x with ⟨slots0, c1⟩
        try dsimp only
        have h : GenInv c c1 slots0.flatten := by
          have h0 := (genLoopCompressedSlotsGo_inv
            (fun ir' s' m' c' x' =>
              generate_event_list_depth d ir' s' m' c' x')
            ch cs iterations s (m - 3) c x
            (fun child hm s' m' c' => IH child s' m' c' x (hwfc child hm))
            (fun child hm gch hm2 s' m' c' =>
              IH gch s' m' c' x ((hwfc child hm).child_wf gch hm2))
            (fun child hm gch hm2 =>
              ((hwfc child hm).child_wf gch hm2).len_nonneg)).flatten_inv
          rw [hr] at h0
          exact h0
        have h2 : GenInv c c1 (slots0.flatten.map bumpNesting) :=
          h.map_preserving (fun e => eventCore_bumpNesting e)
        rw [List.map_flatten] at h2
        exact GenInv.loopWrap h2 rfl rfl rfl rfl rfl rfl rfl rfl rfl rfl
          rfl rfl (by show s ≤ s + len; omega) (by show s ≤ s + len; omega)
    | LoopIterationIR n len iteration nr sweeps ps sh cs ch =>
      simp only [generate_event_list_depth]
      try dsimp only
      exact genLoopIterationCoreGo_inv _ n len iteration nr sweeps ps sh cs
        ch s m c x
        (fun child hm s' m' c' => IH child s' m' c' x (hwfc child hm))
        (fun chi hm => (hwfc chi hm).len_nonneg)
    | PulseIR n len offset has_pulse is_acquire =>
      have hlen : (0 : Int) ≤ len := hwf.len_nonneg
      have hoff : offset ≤ len := hwf.offset_ok
      simp only [generate_event_list_depth]
      try dsimp only
      split
      · exact GenInv.pairEvents PairKind.delayPair (by decide) rfl rfl rfl
          rfl rfl rfl (by show s ≤ s + len; omega)
      · split
        · exact GenInv.pairEvents PairKind.acq (by decide) rfl rfl rfl
            rfl rfl rfl (by show s + offset ≤ s + len; omega)
        · exact GenInv.pairEvents PairKind.play (by decide) rfl rfl rfl
            rfl rfl rfl (by show s + offset ≤ s + len; omega)
    | AcquireGroupIR n len offset =>
      have hlen : (0 : Int) ≤ len := hwf.len_nonneg
      have hoff : offset ≤ len := hwf.offset_ok
      simp only [generate_event_list_depth]
      try dsimp only
      exact GenInv.pairEvents PairKind.acq (by decide) rfl rfl rfl
        rfl rfl rfl (by show s + offset ≤ s + len; omega)
    | OscillatorFrequencyStepIR n len params oscs vals =>
      have hlen : (0 : Int) ≤ len := hwf.len_nonneg
      simp only [generate_event_list_depth]
      try dsimp only
      exact oscStepEvents_inv _ s len c hlen
    | PhaseResetIR a b hw sw =>
      simp only [generate_event_list_depth]
      try dsimp only
      rcases hr : hwPhaseResetEvents hw s c with ⟨evs, c'⟩
      try dsimp only
      have h : GenInv c c' evs := by
        have h0 := hwPhaseResetEvents_inv hw s c
        rw [hr] at h0
        exact h0
      split
      · try dsimp only
        refine h.append2 (GenInv.singletonId rfl rfl ?_ ?_ ?_) le_rfl
          h.counter_le (Nat.le_succ c') le_rfl (Or.inl le_rfl)
        · show EventType.RESET_SW_OSCILLATOR_PHASE ∉ noIdKinds
          decide
        · show EventType.RESET_SW_OSCILLATOR_PHASE ∉ startIdKinds
          decide
        · show EventType.RESET_SW_OSCILLATOR_PHASE ∉ chainKinds
          decide
      · try dsimp only
        exact h
    | PrecompClearIR =>
      simp only [generate_event_list_depth]
      refine GenInv.singletonId rfl rfl ?_ ?_ ?_
      · show EventType.RESET_PRECOMPENSATION_FILTERS ∉ noIdKinds
        decide
      · show EventType.RESET_PRECOMPENSATION_FILTERS ∉ startIdKinds
        decide
      · show EventType.RESET_PRECOMPENSATION_FILTERS ∉ chainKinds
        decide
    | ReserveIR =>
      simp only [generate_event_list_depth]
      exact GenInv.nil c

theorem generate_event_list_inv (ir : IR) (s m : Int) (c : Nat) (x : Bool)
    (hwf : WFIR ir) :
    GenInv c (generate_event_list ir s m c x).2
      (generate_event_list ir s m c x).1 :=
  gen_depth_inv (irSize ir) ir s m c x hwf

/-! `wfirCheck` is sound for `WFIR`. -/

theorem irSize_pos (ir : IR) : 1 ≤ irSize ir := by
  cases ir <;> simp [irSize] <;> omega

theorem irSize_le_of_mem {c : IR} {ch : List IR} (h : c ∈ ch) :
    irSize c ≤ irSizeList ch := by
  induction ch with
  | nil => cases h
  | cons hd tl IH =>
    rcases List.mem_cons.mp h with rfl | h'
    · simp [irSizeList]
    · have := IH h'
      simp only [irSizeList]
      omega

theorem wfirCheckList_mem {ch : List IR} (h : wfirCheckList ch = true) :
    ∀ c ∈ ch, wfirCheck c = true := by
  induction ch with
  | nil => intro c hc; cases hc
  | cons hd tl IH =>
    simp only [wfirCheckList, Bool.and_eq_true] at h
    intro c hc
    rcases List.mem_cons.mp hc with rfl | h'
    · exact h.1
    · exact IH h.2 c h'

theorem wfir_of_check_aux :
    ∀ n ir, irSize ir ≤ n → wfirCheck ir = true → WFIR ir := by
  intro n
  induction n with
  | zero =>
    intro ir hsz _
    have := irSize_pos ir
    omega
  | succ n IH =>
    intro ir hsz hchk
    cases ir with
    | RootScheduleIR len cs ch =>
      simp only [wfirCheck, Bool.and_eq_true, decide_eq_true_eq] at hchk
      refine WFIR.mk _ hchk.1 trivial ?_
      intro c hm
      refine IH c ?_ (wfirCheckList_mem hchk.2 c hm)
      have h1 := irSize_le_of_mem hm
      simp only [irChildren] at h1
      simp only [irSize] at hsz
      omega
    | SectionIR nm len tr pr cs ch =>
      simp only [wfirCheck, Bool.and_eq_true, decide_eq_true_eq] at hchk
      refine WFIR.mk _ hchk.1 trivial ?_
      intro c hm
      refine IH c ?_ (wfirCheckList_mem hchk.2 c hm)
      have h1 := irSize_le_of_mem hm
      simp only [irChildren] at h1
      simp only [irSize] at hsz
      omega
    | MatchIR nm len tr pr a b e f cs ch =>
      simp only [wfirCheck, Bool.and_eq_true, decide_eq_true_eq] at hchk
      refine WFIR.mk _ hchk.1 trivial ?_
      intro c hm
      refine IH c ?_ (wfirCheckList_mem hchk.2 c hm)
      have h1 := irSize_le_of_mem hm
      simp only [irChildren] at h1
      simp only [irSize] at hsz
      omega
    | CaseIR nm len tr pr st cs ch =>
      simp only [wfirCheck, Bool.and_eq_true, decide_eq_true_eq] at hchk
      refine WFIR.mk _ hchk.1 trivial ?_
      intro c hm
      refine IH c ?_ (wfirCheckList_mem hchk.2 c hm)
      have h1 := irSize_le_of_mem hm
      simp only [irChildren] at h1
      simp only [irSize] at hsz
      omega
    | EmptyBranchIR nm len st sigs =>
      simp only [wfirCheck, decide_eq_true_eq] at hchk
      refine WFIR.mk _ hchk trivial ?_
      intro c hm
      cases hm
    | LoopIR nm len cf its cs ch =>
      simp only [wfirCheck, Bool.and_eq_true, decide_eq_true_eq] at hchk
      refine WFIR.mk _ hchk.1 trivial ?_
      intro c hm
      refine IH c ?_ (wfirCheckList_mem hchk.2 c hm)
      have h1 := irSize_le_of_mem hm
      simp only [irChildren] at h1
      simp only [irSize] at hsz
      omega
    | LoopIterationIR nm len it nr sw ps sh cs ch =>
      simp only [wfirCheck, Bool.and_eq_true, decide_eq_true_eq] at hchk
      refine WFIR.mk _ hchk.1 trivial ?_
      intro c hm
      refine IH c ?_ (wfirCheckList_mem hchk.2 c hm)
      have h1 := irSize_le_of_mem hm
      simp only [irChildren] at h1
      simp only [irSize] at hsz
      omega
    | PulseIR nm len off hp ia =>
      simp only [wfirCheck, Bool.and_eq_true, decide_eq_true_eq] at hchk
      refine WFIR.mk _ hchk.1 hchk.2 ?_
      intro c hm
      cases hm
    | AcquireGroupIR nm len off =>
      simp only [wfirCheck, Bool.and_eq_true, decide_eq_true_eq] at hchk
      refine WFIR.mk _ hchk.1 hchk.2 ?_
      intro c hm
      cases hm
    | OscillatorFrequencyStepIR nm len ps os vs it =>
      simp only [wfirCheck, decide_eq_true_eq] at hchk
      refine WFIR.mk _ hchk trivial ?_
      intro c hm
      cases hm
    | PhaseResetIR nm len hw sw =>
      simp only [wfirCheck, decide_eq_true_eq] at hchk
      refine WFIR.mk _ hchk trivial ?_
      intro c hm
      cases hm
    | PrecompClearIR len =>
      simp only [wfirCheck, decide_eq_true_eq] at hchk
      refine WFIR.mk _ hchk trivial ?_
      intro c hm
      cases hm
    | ReserveIR len =>
      simp only [wfirCheck, decide_eq_true_eq] at hchk
      refine WFIR.mk _ hchk trivial ?_
      intro c hm
      cases hm

theorem wfir_of_check {ir : IR} (h : wfirCheck ir = true) : WFIR ir :=
  wfir_of_check_aux (irSize ir) ir le_rfl h

/-! Claim theorems. -/

theorem mem_evIds {evs : List Event} {i : Nat} :
    i ∈ evIds evs ↔ ∃ e ∈ evs, e.id = some i := by
  unfold evIds
  simp [List.mem_filterMap]

/-- C1 counterexample: for a Section with one Pulse child, the SECTION_START
id (2) is drawn after the children's ids (0, 1), so the emitted id sequence
[2, 0, 1, 3] is not increasing in emission order. -/
theorem c1_cex :
    evIds (generate_event_list
      (.SectionIR 0 10 [] none [0] [.PulseIR 0 5 0 true false])
      0 100 0 false).1 = [2, 0, 1, 3] ∧
    ¬ List.Pairwise (· < ·) (evIds (generate_event_list
      (.SectionIR 0 10 [] none [0] [.PulseIR 0 5 0 true false])
      0 100 0 false).1) := by
  decide

/-- C1 amended: the ids of one generation call are pairwise distinct (never
reused) and all drawn from the counter interval `[c, c')` of that call, but
they are not emitted in increasing list order. -/
theorem c1_amended (ir : IR) (s m : Int) (c : Nat) (x : Bool)
    (hwf : WFIR ir) :
    (evIds (generate_event_list ir s m c x).1).Nodup ∧
    ∀ i ∈ evIds (generate_event_list ir s m c x).1,
      c ≤ i ∧ i < (generate_event_list ir s m c x).2 := by
  have h := generate_event_list_inv ir s m c x hwf
  refine ⟨h.ids_nodup, ?_⟩
  intro i hi
  obtain ⟨e, he, hei⟩ := mem_evIds.mp hi
  exact h.id_range e he i hei

/-- C1 witness: the amended theorem at the Section-with-Pulse tree. -/
theorem c1_witness :
    (evIds (generate_event_list
      (.SectionIR 0 10 [] none [0] [.PulseIR 0 5 0 true false])
      0 100 0 false).1).Nodup :=
  (c1_amended (.SectionIR 0 10 [] none [0] [.PulseIR 0 5 0 true false])
    0 100 0 false (wfir_of_check (by decide))).1

/-- C2 counterexample: a Loop's LOOP_START carries `chain_element_id = 0`
but no `id` at all, so a paired START's chain id is not its own id. -/
theorem c2_cex :
    ∃ e ∈ (generate_event_list (.LoopIR 0 40 false 3 [] [])
      0 100 0 false).1,
      e.event_type = .LOOP_START ∧ e.chain_element_id = some 0 ∧
      e.id = none := by
  decide

/-- C2 amended: per pair kind and chain id, STARTs and ENDs are balanced in
every generated list, at most one START carries a given chain id, a matched
END never precedes its START in time, and the START kinds that draw their
own id (`startIdKinds`) carry `chain_element_id` equal to that id — but
LOOP_START / LOOP_END / SECTION_END of a Loop hold a chain id without any
`id` of their own. -/
theorem c2_amended (ir : IR) (s m : Int) (c : Nat) (x : Bool)
    (hwf : WFIR ir) :
    ∀ pk k,
      countKC (startType pk) k (generate_event_list ir s m c x).1 =
        countKC (endType pk) k (generate_event_list ir s m c x).1 ∧
      countKC (startType pk) k (generate_event_list ir s m c x).1 ≤ 1 ∧
      (∀ e ∈ (generate_event_list ir s m c x).1,
        ∀ f ∈ (generate_event_list ir s m c x).1,
        e.event_type = startType pk → f.event_type = endType pk →
        e.chain_element_id = some k → f.chain_element_id = some k →
        e.time ≤ f.time) ∧
      (∀ e ∈ (generate_event_list ir s m c x).1,
        e.event_type ∈ startIdKinds →
        e.id.isSome ∧ e.chain_element_id = e.id) := by
  intro pk k
  have h := generate_event_list_inv ir s m c x hwf
  exact ⟨h.balanced pk k, h.start_unique pk k,
    fun e he f hf h1 h2 h3 h4 => h.pair_times pk k e he f hf h1 h2 h3 h4,
    fun e he hs => h.chain_own e he hs⟩

/-- C2 witness: pairing balance at a concrete Loop tree. -/
theorem c2_witness :
    countKC (startType PairKind.sec) 0
      (generate_event_list (.LoopIR 0 40 false 3 [] []) 0 100 0 false).1 =
    countKC (endType PairKind.sec) 0
      (generate_event_list (.LoopIR 0 40 false 3 [] []) 0 100 0 false).1 :=
  (c2_amended (.LoopIR 0 40 false 3 [] []) 0 100 0 false
    (wfir_of_check (by decide)) PairKind.sec 0).1

/-- C6 counterexample: the Loop arm's SECTION_END carries no `id`, so not
every event carries the `id` field. -/
theorem c6_cex :
    ∃ e ∈ (generate_event_list (.LoopIR 0 40 false 3 [] [])
      0 100 0 false).1,
      e.event_type = .SECTION_END ∧ e.id = none := by
  decide

/-- C6 amended: id and chain presence follow the kind tables: kinds of
`idKinds` always carry an id, kinds of `noIdKinds` (LOOP_START, LOOP_STEP_*,
PARAMETER_SET, trigger and PRNG-sample events, and the Loop arm's LOOP_END /
SECTION_END) never do, and `chain_element_id` is present exactly on the
chain-paired kinds. -/
theorem c6_amended (ir : IR) (s m : Int) (c : Nat) (x : Bool)
    (hwf : WFIR ir) :
    ∀ e ∈ (generate_event_list ir s m c x).1,
      (e.event_type ∈ idKinds → e.id.isSome) ∧
      (e.event_type ∈ noIdKinds → e.id = none) ∧
      (e.chain_element_id.isSome ↔ e.event_type ∈ chainKinds) := by
  have h := generate_event_list_inv ir s m c x hwf
  intro e he
  exact ⟨h.id_present e he, h.id_absent e he, h.chain_iff e he⟩

/-- C6 witness: the amended theorem at a concrete Pulse tree's PLAY_START
event. -/
theorem c6_witness :
    (({ event_type := .PLAY_START, time := 0, id := some 0,
        chain_element_id := some 0 } : Event).id).isSome :=
  ((c6_amended (.PulseIR 0 5 0 true false) 0 100 0 false
    (wfir_of_check (by decide))
    { event_type := .PLAY_START, time := 0, id := some 0,
      chain_element_id := some 0 }
    (by decide)).1 (by decide))

/-- C9 counterexample: a waveform-less Pulse with `offset = 4` emits its
DELAY_START at the node start (time 0), not at start + offset (4). -/
theorem c9_cex :
    ∃ e ∈ (generate_event_list (.PulseIR 0 10 4 false false)
      0 100 0 false).1,
      e.event_type = .DELAY_START ∧ e.time ≠ 0 + 4 := by
  decide

/-- C9 amended: the exact Pulse emission: a DELAY pair when there is no
waveform with its START at the node start (the offset is ignored), an
ACQUIRE pair for an acquisition and a PLAY pair otherwise with their STARTs
at start + offset; all three END events sit at start + length. -/
theorem c9_amended (n : Nat) (len offset : Int) (hp ia : Bool) (s m : Int)
    (c : Nat) (x : Bool) :
    (generate_event_list (.PulseIR n len offset hp ia) s m c x).1 =
    if !hp then
      [{ event_type := .DELAY_START, time := s, id := some c,
         chain_element_id := some c },
       { event_type := .DELAY_END, time := s + len, id := some (c + 1),
         chain_element_id := some c }]
    else if ia then
      [{ event_type := .ACQUIRE_START, time := s + offset, id := some c,
         chain_element_id := some c },
       { event_type := .ACQUIRE_END, time := s + len, id := some (c + 1),
         chain_element_id := some c }]
    else
      [{ event_type := .PLAY_START, time := s + offset, id := some c,
         chain_element_id := some c },
       { event_type := .PLAY_END, time := s + len, id := some (c + 1),
         chain_element_id := some c }] := by
  cases hp <;> cases ia <;> rfl

/-! Budget-independent bounds on emitted event counts. -/

theorem triggerEvents_len (tr : List (Nat × Nat)) (s len : Int) :
    ∀ m, (triggerEvents tr s len m).1.length ≤ tr.length ∧
      (triggerEvents tr s len m).2.1.length ≤ tr.length := by
  induction tr with
  | nil => intro m; exact ⟨le_rfl, le_rfl⟩
  | cons hd tl IH =>
    intro m
    unfold triggerEvents
    split
    · simp
    · have := IH (m - 2)
      rcases htv : triggerEvents tl s len (m - 2) with ⟨a, b, m'⟩
      rw [htv] at this
      dsimp only at this
      simp only [List.length_cons]
      omega

theorem prngSetupEvents_len (pr : Option (Int × Int)) (s len m : Int)
    (c : Nat) :
    (prngSetupEvents pr s len m c).1.length ≤ 1 ∧
    (prngSetupEvents pr s len m c).2.1.length ≤ 1 := by
  rcases prngSetupEvents_cases pr s len m c with h | h <;> rw [h] <;>
    exact ⟨by simp, by simp⟩

theorem parameterSetEvents_len (sweeps : List Nat) (s : Int) :
    (parameterSetEvents sweeps s).length = sweeps.length := by
  simp [parameterSetEvents]

theorem prngSampleDrawEvents_len (ps : Option Nat) (s : Int) :
    (prngSampleDrawEvents ps s).length ≤ 1 := by
  cases ps <;> simp [prngSampleDrawEvents]

theorem prngSampleDropEvents_len (ps : Option Nat) (s : Int) :
    (prngSampleDropEvents ps s).length ≤ 1 := by
  cases ps <;> simp [prngSampleDropEvents]

theorem emptyBranchDelays_len (sigs : List Nat) (s len : Int) :
    ∀ m c, (emptyBranchDelays sigs s len m c).1.length ≤ 2 * sigs.length := by
  induction sigs with
  | nil => intro m c; simp [emptyBranchDelays]
  | cons hd tl IH =>
    intro m c
    unfold emptyBranchDelays
    split
    · simp
    · have := IH (m - 2) (c + 2)
      rcases h : emptyBranchDelays tl s len (m - 2) (c + 2) with ⟨evs, c'⟩
      rw [h] at this
      dsimp only at this
      simp only [List.length_cons, List.length_nil]
      omega

theorem oscStepEvents_len (steps : List ((Nat × Nat) × Int)) (s len : Int) :
    ∀ c, (oscStepEvents steps s len c).1.length ≤ 2 * steps.length := by
  induction steps with
  | nil => intro c; simp [oscStepEvents]
  | cons hd tl IH =>
    intro c
    unfold oscStepEvents
    have := IH (c + 2)
    rcases h : oscStepEvents tl s len (c + 2) with ⟨evs, c'⟩
    rw [h] at this
    dsimp only at this
    simp only [List.length_cons]
    omega

theorem hwPhaseResetEvents_len (devices : List (Nat × Int)) (s : Int) :
    ∀ c, (hwPhaseResetEvents devices s c).1.length ≤ devices.length := by
  induction devices with
  | nil => intro c; simp [hwPhaseResetEvents]
  | cons hd tl IH =>
    intro c
    unfold hwPhaseResetEvents
    have := IH (c + 1)
    rcases h : hwPhaseResetEvents tl s (c + 1) with ⟨evs, c'⟩
    rw [h] at this
    dsimp only at this
    simp only [List.length_cons]
    omega

theorem flatten_replicate_nil (n : Nat) :
    (List.replicate n ([] : List Event)).flatten = [] := by
  induction n with
  | zero => rfl
  | succ k IH => simp [List.replicate_succ, IH]

theorem wrapSlots_flatten_len (ch : List IR) :
    ∀ (sts : List Int) (slots : List (List Event)) (s : Int) (c : Nat),
      ((wrapSlots ch sts slots s c).1).flatten.length ≤
        slots.flatten.length + 2 * ch.length := by
  induction ch with
  | nil => intro sts slots s c; simp [wrapSlots]
  | cons hd tl IH =>
    intro sts slots s c
    unfold wrapSlots
    match slots with
    | [] => simp
    | sl :: sls =>
      dsimp only
      split
      · have := IH sts.tail sls s (c + 2)
        rcases h : wrapSlots tl sts.tail sls s (c + 2) with ⟨rest, c'⟩
        rw [h] at this
        dsimp only at this
        simp only [List.flatten_cons, List.length_append, List.length_cons,
          List.length_nil] at this ⊢
        omega
      · have := IH sts.tail sls s c
        rcases h : wrapSlots tl sts.tail sls s c with ⟨rest, c'⟩
        rw [h] at this
        dsimp only at this
        simp only [List.flatten_cons, List.length_append, List.length_cons] at this ⊢
        omega

theorem childrenVisitGo_flatten_len (genf : GenFun) (x : Bool)
    (children : List IR)
    (hlen : ∀ child ∈ children, ∀ s' m' c',
      ((genf child s' m' c' x).1).length ≤ ubEvents child) :
    ∀ (cs : List Int) (s m : Int) (c : Nat),
      ((childrenVisitGo genf children cs s m c x).1).flatten.length ≤
        ubList children := by
  induction children with
  | nil => intro cs s m c; cases cs <;> simp [childrenVisitGo]
  | cons hd tl IH =>
    intro cs s m c
    match cs with
    | [] => simp [childrenVisitGo, ubList]
    | st :: sts =>
      unfold childrenVisitGo
      split
      · simp [ubList]
      · set ev := genf hd (s + st) m c x with hev
        have h0 : ev.1.length ≤ ubEvents hd := by
          rw [hev]
          exact hlen hd (List.mem_cons_self hd tl) (s + st) m c
        set rec := childrenVisitGo genf tl sts s (m - (ev.1.length : Int))
          ev.2 x with hrec
        have h1 : rec.1.flatten.length ≤ ubList tl := by
          rw [hrec]
          exact IH (fun child hm => hlen child (List.mem_cons_of_mem hd hm))
            sts s (m - (ev.1.length : Int)) ev.2
        show (ev.1 :: rec.1).flatten.length ≤ ubList (hd :: tl)
        simp only [List.flatten_cons, List.length_append, ubList]
        omega

theorem _children_eventsGo_len (genf : GenFun) (children : List IR)
    (cs : List Int) (flag : Bool) (s m : Int) (c : Nat) (x : Bool)
    (hlen : ∀ child ∈ children, ∀ s' m' c',
      ((genf child s' m' c' x).1).length ≤ ubEvents child) :
    ((_children_eventsGo genf children cs flag s m c x).1).flatten.length ≤
      ubList children + 2 * children.length := by
  unfold _children_eventsGo
  set m2 := if flag then m - 2 * (children.length : Int) else m with hm2
  set r := childrenVisitGo genf children cs s m2 c x with hr
  have hvis : r.1.flatten.length ≤ ubList children := by
    rw [hr]
    exact childrenVisitGo_flatten_len genf x children hlen cs s m2 c
  set slots := r.1 ++ List.replicate (children.length - r.1.length) []
    with hsl
  have hpad : slots.flatten.length ≤ ubList children := by
    rw [hsl, List.flatten_append, flatten_replicate_nil, List.append_nil]
    exact hvis
  by_cases hflag : flag
  · simp only [hflag, if_true]
    show (wrapSlots children cs slots s r.2).1.flatten.length ≤
      ubList children + 2 * children.length
    have := wrapSlots_flatten_len children cs slots s r.2
    omega
  · simp only [hflag, if_false]
    show slots.flatten.length ≤ ubList children + 2 * children.length
    omega

theorem setLastCompressed_len (evs : List Event) :
    (setLastCompressed evs).length = evs.length := by
  induction evs with
  | nil => rfl
  | cons e rest IH =>
    cases rest with
    | nil => rfl
    | cons f rest' =>
      simp only [setLastCompressed, List.length_cons] at IH ⊢
      omega

theorem genSectionCoreGo_len (genf : GenFun) (n : Nat) (len : Int)
    (tr : List (Nat × Nat)) (pr : Option (Int × Int)) (cs : List Int)
    (ch : List IR) (s : Int) (m : Int) (c : Nat) (x : Bool)
    (hlen : ∀ child ∈ ch, ∀ s' m' c',
      ((genf child s' m' c' x).1).length ≤ ubEvents child) :
    ((genSectionCoreGo genf n len tr pr cs ch s m c x).1).length ≤
      4 + 2 * tr.length + ubList ch + 2 * ch.length := by
  unfold genSectionCoreGo
  dsimp only
  rcases htv : triggerEvents tr s len (m - 2) with ⟨tset, tclr, m2⟩
  dsimp only
  have ht := triggerEvents_len tr s len (m - 2)
  rw [htv] at ht
  dsimp only at ht
  have hpl := prngSetupEvents_len pr s len m2 c
  rcases prngSetupEvents_cases pr s len m2 c with hpc | hpc <;>
    rw [hpc] at hpl ⊢ <;> dsimp only at hpl ⊢
  · rcases hcv : _children_eventsGo genf ch cs true s m2 c x with ⟨cev, c3⟩
    have hc := _children_eventsGo_len genf ch cs true s m2 c x hlen
    rw [hcv] at hc
    dsimp only at hc
    dsimp only
    simp only [List.length_cons, List.length_append, List.length_nil]
    omega
  · rcases hcv : _children_eventsGo genf ch cs true s (m2 - 2) (c + 2) x
      with ⟨cev, c3⟩
    have hc := _children_eventsGo_len genf ch cs true s (m2 - 2) (c + 2) x hlen
    rw [hcv] at hc
    dsimp only at hc
    dsimp only
    simp only [List.length_cons, List.length_append, List.length_nil]
    omega

theorem genLoopIterationCoreGo_len (genf : GenFun) (n : Nat) (len : Int)
    (iteration : Nat) (nr : Nat) (sweeps : List Nat) (ps : Option Nat)
    (sh : Bool) (cs : List Int) (ch : List IR) (s : Int) (m : Int) (c : Nat)
    (x : Bool)
    (hlen : ∀ child ∈ ch, ∀ s' m' c',
      ((genf child s' m' c' x).1).length ≤ ubEvents child) :
    ((genLoopIterationCoreGo genf n len iteration nr sweeps ps sh cs ch
      s m c x).1).length ≤ 5 + sweeps.length + ubList ch + 2 * ch.length := by
  unfold genLoopIterationCoreGo
  dsimp only
  rcases hcv : _children_eventsGo genf ch cs true s
      ((if iteration == 0 then m - sweeps.length - 1 else m - sweeps.length)
        - 3) c x with ⟨cev, c1⟩
  dsimp only
  have hc := _children_eventsGo_len genf ch cs true s
    ((if iteration == 0 then m - sweeps.length - 1 else m - sweeps.length)
      - 3) c x hlen
  rw [hcv] at hc
  dsimp only at hc
  have hps := parameterSetEvents_len sweeps s
  have hdr := prngSampleDrawEvents_len ps s
  have hdp := prngSampleDropEvents_len ps (s + len)
  split
  · rw [List.length_map]
    split <;>
      simp only [List.length_cons, List.length_append, List.length_nil] <;>
      omega
  · split <;>
      simp only [List.length_cons, List.length_append, List.length_nil] <;>
      omega

theorem shadowIterationsGo_len (genf : GenFun) (pn : Nat) (plen : Int)
    (nr : Nat) (sweeps : List Nat) (ps : Option Nat) (cs : List Int)
    (ch : List IR) (x : Bool)
    (hlen : ∀ child ∈ ch, ∀ s' m' c',
      ((genf child s' m' c' x).1).length ≤ ubEvents child) :
    ∀ (r idx : Nat) (prevLen istart m : Int) (c : Nat),
      ((shadowIterationsGo genf pn plen nr sweeps ps cs ch r idx prevLen
          istart m c x).1).length ≤ r ∧
      ((shadowIterationsGo genf pn plen nr sweeps ps cs ch r idx prevLen
          istart m c x).1).flatten.length ≤
        r * (5 + sweeps.length + ubList ch + 2 * ch.length) := by
  intro r
  induction r with
  | zero =>
    intro idx prevLen istart m c
    constructor <;> simp [shadowIterationsGo]
  | succ r IH =>
    intro idx prevLen istart m c
    unfold shadowIterationsGo
    dsimp only
    split
    · exact ⟨by simp, by simp⟩
    · set ev := genLoopIterationCoreGo genf pn plen idx nr sweeps ps true
        cs ch (istart + plen) (m - prevLen) c x with hev
      have h0 : ev.1.length ≤ 5 + sweeps.length + ubList ch + 2 * ch.length := by
        rw [hev]
        exact genLoopIterationCoreGo_len genf pn plen idx nr sweeps ps true
          cs ch (istart + plen) (m - prevLen) c x hlen
      set rec := shadowIterationsGo genf pn plen nr sweeps ps cs ch r
        (idx + 1) (ev.1.length : Int) (istart + plen) (m - prevLen) ev.2 x
        with hrec
      have h1 := IH (idx + 1) (ev.1.length : Int) (istart + plen)
        (m - prevLen) ev.2
      rw [← hrec] at h1
      refine ⟨?_, ?_⟩
      · show (ev.1 :: rec.1).length ≤ r + 1
        simp only [List.length_cons]
        omega
      · show (ev.1 :: rec.1).flatten.length ≤
          (r + 1) * (5 + sweeps.length + ubList ch + 2 * ch.length)
        simp only [List.flatten_cons, List.length_append]
        have := h1.2
        nlinarith [h1.2, h0]

theorem genShadowExpansionGo_len (genf : GenFun) (child : IR)
    (ev0 : List Event) (iterations : Nat) (s : Int) (m : Int) (c0 : Nat)
    (x : Bool)
    (hlen : ∀ gch ∈ irChildren child, ∀ s' m' c',
      ((genf gch s' m' c' x).1).length ≤ ubEvents gch) :
    (List.flatten
      (genShadowExpansionGo genf child ev0 iterations s m c0 x).1).length ≤
      ev0.length + iterations * ubEvents child := by
  unfold genShadowExpansionGo
  cases child with
  | LoopIterationIR cname clen citer cnum csweeps cprng cshadow ccs cch =>
    dsimp only
    set r := shadowIterationsGo genf cname clen cnum csweeps cprng ccs cch
      (iterations - 1) 1 (ev0.length : Int) s m c0 x with hr
    have h1 := shadowIterationsGo_len genf cname clen cnum csweeps cprng ccs
      cch x (fun gch hm => hlen gch hm) (iterations - 1) 1
      (ev0.length : Int) s m c0
    rw [← hr] at h1
    show (ev0 :: r.1).flatten.length ≤
      ev0.length + iterations * ubEvents
        (.LoopIterationIR cname clen citer cnum csweeps cprng cshadow ccs cch)
    simp only [List.flatten_cons, List.length_append, ubEvents]
    have h2 := h1.2
    have h3 : (iterations - 1) * (5 + csweeps.length + ubList cch +
        2 * cch.length) ≤ iterations *
        (5 + csweeps.length + ubList cch + 2 * cch.length) :=
      Nat.mul_le_mul_right _ (Nat.sub_le _ _)
    omega
  | RootScheduleIR a b ch => simp
  | SectionIR a b d e f g => simp
  | MatchIR a b d e f g h i j k => simp
  | CaseIR a b d e f g h => simp
  | EmptyBranchIR a b d e => simp
  | LoopIR a b d e f g => simp
  | PulseIR a b d e f => simp
  | AcquireGroupIR a b d => simp
  | OscillatorFrequencyStepIR a b d e f g => simp
  | PhaseResetIR a b d e => simp
  | PrecompClearIR a => simp
  | ReserveIR a => simp

theorem genLoopCompressedSlotsGo_len (genf : GenFun) (children : List IR)
    (cs : List Int) (iterations : Nat) (s : Int) (m : Int) (c : Nat)
    (x : Bool)
    (hlen : ∀ child ∈ children, ∀ s' m' c',
      ((genf child s' m' c' x).1).length ≤ ubEvents child)
    (hlen2 : ∀ child ∈ children, ∀ gch ∈ irChildren child, ∀ s' m' c',
      ((genf gch s' m' c' x).1).length ≤ ubEvents gch) :
    (List.flatten
      (genLoopCompressedSlotsGo genf children cs iterations s m c x).1).length
      ≤ (iterations + 1) * (ubList children + 2 * children.length) := by
  unfold genLoopCompressedSlotsGo
  cases children with
  | nil => cases cs <;> simp
  | cons child rest =>
    cases cs with
    | nil => simp
    | cons st0 rest' =>
      dsimp only
      set ev := genf child (s + st0) m c x with hev
      have h0 : ev.1.length ≤ ubEvents child := by
        rw [hev]
        exact hlen child (List.mem_cons_self child rest) (s + st0) m c
      have hub : ubEvents child ≤ ubList (child :: rest) := by
        simp only [ubList]
        omega
      split
      · have h1 := genShadowExpansionGo_len genf child
          (setLastCompressed ev.1) iterations s m ev.2 x
          (hlen2 child (List.mem_cons_self child rest))
        rw [setLastCompressed_len] at h1
        have h2 : ev.1.length + iterations * ubEvents child ≤
            (iterations + 1) * (ubList (child :: rest) +
              2 * (child :: rest).length) := by
          have := Nat.mul_le_mul_left iterations hub
          simp only [List.length_cons]
          nlinarith
        omega
      · show ([setLastCompressed ev.1] : List (List Event)).flatten.length ≤ _
        simp only [List.flatten_cons, List.flatten_nil, List.append_nil,
          setLastCompressed_len]
        have h2 : ubEvents child ≤ (iterations + 1) *
            (ubList (child :: rest) + 2 * (child :: rest).length) := by
          have : ubList (child :: rest) + 2 * (child :: rest).length ≤
              (iterations + 1) * (ubList (child :: rest) +
                2 * (child :: rest).length) :=
            Nat.le_mul_of_pos_left _ (Nat.succ_pos _)
          simp only [ubList] at this ⊢
          omega
        omega

theorem flatten_map_len (f : Event → Event) (slots : List (List Event)) :
    ((slots.map (List.map f)).flatten).length = slots.flatten.length := by
  rw [← List.map_flatten, List.length_map]

theorem gen_depth_len (d : Nat) :
    ∀ (ir : IR) (s m : Int) (c : Nat) (x : Bool),
      ((generate_event_list_depth d ir s m c x).1).length ≤ ubEvents ir := by
  induction d with
  | zero => intro ir s m c x; simp [generate_event_list_depth]
  | succ d IH =>
    intro ir s m c x
    cases ir with
    | RootScheduleIR len cs ch =>
      simp only [generate_event_list_depth]
      try dsimp only
      set r := _children_eventsGo
        (fun ir' s' m' c' x' => generate_event_list_depth d ir' s' m' c' x')
        ch cs false s (m - 2) c x with hr
      have h := _children_eventsGo_len
        (fun ir' s' m' c' x' => generate_event_list_depth d ir' s' m' c' x')
        ch cs false s (m - 2) c x (fun child hm s' m' c' => IH child s' m' c' x)
      rw [← hr] at h
      show r.1.flatten.length ≤ ubEvents (.RootScheduleIR len cs ch)
      simp only [ubEvents]
      omega
    | SectionIR nm len tr pr cs ch =>
      simp only [generate_event_list_depth]
      try dsimp only
      exact genSectionCoreGo_len _ nm len tr pr cs ch s m c x
        (fun child hm s' m' c' => IH child s' m' c' x)
    | MatchIR nm len tr pr a b e f cs ch =>
      simp only [generate_event_list_depth]
      try dsimp only
      exact genSectionCoreGo_len _ nm len tr pr cs ch s m c x
        (fun child hm s' m' c' => IH child s' m' c' x)
    | CaseIR nm len tr pr st cs ch =>
      simp only [generate_event_list_depth]
      try dsimp only
      set r := genSectionCoreGo
        (fun ir' s' m' c' x' => generate_event_list_depth d ir' s' m' c' x')
        nm len tr pr cs ch s m c x with hr
      have h := genSectionCoreGo_len
        (fun ir' s' m' c' x' => generate_event_list_depth d ir' s' m' c' x')
        nm len tr pr cs ch s m c x
        (fun child hm s' m' c' => IH child s' m' c' x)
      rw [← hr] at h
      show (r.1.map (setState st)).length ≤ ubEvents (.CaseIR nm len tr pr st cs ch)
      rw [List.length_map]
      exact h
    | EmptyBranchIR nm len st sigs =>
      simp only [generate_event_list_depth]
      try dsimp only
      split
      · simp [ubEvents]
      · set r := emptyBranchDelays sigs s len m (c + 2) with hr
        have h := emptyBranchDelays_len sigs s len m (c + 2)
        rw [← hr] at h
        show (List.cons _ (r.1 ++ [_])).length ≤
          ubEvents (.EmptyBranchIR nm len st sigs)
        simp only [List.length_cons, List.length_append, List.length_cons,
          List.length_nil, ubEvents]
        omega
    | LoopIR nm len cf its cs ch =>
      simp only [generate_event_list_depth]
      try dsimp only
      cases cf with
      | false =>
        try dsimp only [Bool.not_false, reduceIte]
        set r := _children_eventsGo
          (fun ir' s' m' c' x' => generate_event_list_depth d ir' s' m' c' x')
          ch cs false s (m - 3) c x with hr
        have h := _children_eventsGo_len
          (fun ir' s' m' c' x' => generate_event_list_depth d ir' s' m' c' x')
          ch cs false s (m - 3) c x
          (fun child hm s' m' c' => IH child s' m' c' x)
        rw [← hr] at h
        show (_ :: _ :: ((r.1.map (List.map bumpNesting)).flatten ++ _)).length
          ≤ ubEvents (.LoopIR nm len false its cs ch)
        simp only [List.length_cons, List.length_append, List.length_nil,
          flatten_map_len, ubEvents]
        have hf : ubList ch + 2 * ch.length ≤
            (its + 1) * (ubList ch + 2 * ch.length) :=
          Nat.le_mul_of_pos_left _ (Nat.succ_pos _)
        omega
      | true =>
        try dsimp only [Bool.not_true, reduceIte]
        set r := genLoopCompressedSlotsGo
          (fun ir' s' m' c' x' => generate_event_list_depth d ir' s' m' c' x')
          ch cs its s (m - 3) c x with hr
        have h := genLoopCompressedSlotsGo_len
          (fun ir' s' m' c' x' => generate_event_list_depth d ir' s' m' c' x')
          ch cs its s (m - 3) c x
          (fun child hm s' m' c' => IH child s' m' c' x)
          (fun child hm gch hm2 s' m' c' => IH gch s' m' c' x)
        rw [← hr] at h
        show (_ :: _ :: ((r.1.map (List.map bumpNesting)).flatten ++ _)).length
          ≤ ubEvents (.LoopIR nm len true its cs ch)
        simp only [List.length_cons, List.length_append, List.length_nil,
          flatten_map_len, ubEvents]
        omega
    | LoopIterationIR nm len it nr sw ps sh cs ch =>
      simp only [generate_event_list_depth]
      try dsimp only
      exact genLoopIterationCoreGo_len _ nm len it nr sw ps sh cs ch s m c x
        (fun child hm s' m' c' => IH child s' m' c' x)
    | PulseIR nm len off hp ia =>
      cases hp <;> cases ia <;>
        simp [generate_event_list_depth, ubEvents]
    | AcquireGroupIR nm len off =>
      simp [generate_event_list_depth, ubEvents]
    | OscillatorFrequencyStepIR nm len params oscs vals it =>
      simp only [generate_event_list_depth]
      try dsimp only
      have h := oscStepEvents_len ((params.zip oscs).zip vals) s len c
      have hz : ((params.zip oscs).zip vals).length ≤ params.length := by
        simp only [List.length_zip]
        omega
      show (oscStepEvents ((params.zip oscs).zip vals) s len c).1.length ≤
        ubEvents (.OscillatorFrequencyStepIR nm len params oscs vals it)
      simp only [ubEvents]
      omega
    | PhaseResetIR nm len hw sw =>
      simp only [generate_event_list_depth]
      try dsimp only
      set r := hwPhaseResetEvents hw s c with hr
      have h := hwPhaseResetEvents_len hw s c
      rw [← hr] at h
      split
      · show (r.1 ++ [_]).length ≤ ubEvents (.PhaseResetIR nm len hw sw)
        simp only [List.length_append, List.length_cons, List.length_nil,
          ubEvents]
        omega
      · show r.1.length ≤ ubEvents (.PhaseResetIR nm len hw sw)
        simp only [ubEvents]
        omega
    | PrecompClearIR len =>
      simp [generate_event_list_depth, ubEvents]
    | ReserveIR len =>
      simp [generate_event_list_depth, ubEvents]

theorem generate_event_list_len (ir : IR) (s m : Int) (c : Nat) (x : Bool) :
    ((generate_event_list ir s m c x).1).length ≤ ubEvents ir :=
  gen_depth_len (irSize ir) ir s m c x

/-- C3 counterexample: a childless Section with budget 0 still emits its
SECTION_START/SECTION_END pair: 2 events, exceeding the budget. -/
theorem c3_cex :
    ¬ ((generate_event_list (.SectionIR 0 0 [] none [] [])
      0 0 0 false).1.length ≤ 0) := by
  decide

/-- C3 amended: the budget is not a hard bound (each node still emits its
own wrapper pair); what holds is a budget-independent structural bound
`ubEvents` on the emission length, and the child-visiting loop stops
emitting as soon as the budget is exhausted. -/
theorem c3_amended :
    (∀ (ir : IR) (s m : Int) (c : Nat) (x : Bool),
      ((generate_event_list ir s m c x).1).length ≤ ubEvents ir) ∧
    (∀ (genf : GenFun) (child : IR) (ch : List IR) (st : Int)
      (sts : List Int) (s m : Int) (c : Nat) (x : Bool), m ≤ 0 →
      childrenVisitGo genf (child :: ch) (st :: sts) s m c x = ([], c)) := by
  constructor
  · exact fun ir s m c x => generate_event_list_len ir s m c x
  · intro genf child ch st sts s m c x hm
    unfold childrenVisitGo
    rw [if_pos hm]

/-- C3 witness: the truncation clause at budget 0. -/
theorem c3_witness :
    (0 : Int) ≤ 0 ∧
    childrenVisitGo generate_event_list [.ReserveIR 0] [0] 0 0 0 false =
      ([], 0) :=
  ⟨le_rfl, c3_amended.2 generate_event_list (.ReserveIR 0) [] 0 [] 0 0 0
    false le_rfl⟩

/-! The SUBSECTION-wrapping structure of `_children_events` (claim C4). -/

theorem childrenVisitGo_slots_mem (genf : GenFun) (x : Bool) :
    ∀ (children : List IR) (cs : List Int) (s m : Int) (c : Nat),
      ∀ sl ∈ (childrenVisitGo genf children cs s m c x).1,
        ∃ chi ∈ children, ∃ s' m' c', sl = (genf chi s' m' c' x).1 := by
  intro children
  induction children with
  | nil => intro cs s m c sl hsl; cases cs <;> simp [childrenVisitGo] at hsl
  | cons hd tl IH =>
    intro cs s m c sl hsl
    match cs with
    | [] => simp [childrenVisitGo] at hsl
    | st :: sts =>
      unfold childrenVisitGo at hsl
      split at hsl
      · simp at hsl
      · set ev := genf hd (s + st) m c x with hev
        have : sl ∈ ev.1 :: (childrenVisitGo genf tl sts s
            (m - (ev.1.length : Int)) ev.2 x).1 := hsl
        rcases List.mem_cons.mp this with rfl | h'
        · exact ⟨hd, List.mem_cons_self hd tl, s + st, m, c, by rw [hev]⟩
        · obtain ⟨chi, hchi, s', m', c', hsl'⟩ :=
            IH sts s (m - (ev.1.length : Int)) ev.2 sl h'
          exact ⟨chi, List.mem_cons_of_mem hd hchi, s', m', c', hsl'⟩

theorem headNotSub_flatten {slots : List (List Event)}
    (h : ∀ sl ∈ slots, sl.head?.map (fun e => e.event_type) ≠
      some EventType.SUBSECTION_START) :
    (slots.flatten.head?.map (fun e => e.event_type)) ≠
      some EventType.SUBSECTION_START := by
  induction slots with
  | nil => simp
  | cons sl sls IH =>
    cases sl with
    | nil =>
      simp only [List.flatten_cons, List.nil_append]
      exact IH (fun t ht => h t (List.mem_cons_of_mem _ ht))
    | cons e rest =>
      have h0 := h (e :: rest) (List.mem_cons_self _ _)
      simp only [List.flatten_cons, List.cons_append, List.head?_cons,
        Option.map_some] at h0 ⊢
      exact h0

theorem gen_depth_head (d : Nat) :
    ∀ (ir : IR) (s m : Int) (c : Nat) (x : Bool),
      ((generate_event_list_depth d ir s m c x).1.head?.map
        (fun e => e.event_type)) ≠ some EventType.SUBSECTION_START := by
  induction d with
  | zero => intro ir s m c x; simp [generate_event_list_depth]
  | succ d IH =>
    intro ir s m c x
    cases ir with
    | RootScheduleIR len cs ch =>
      simp only [generate_event_list_depth]
      try dsimp only
      set r := childrenVisitGo
        (fun ir' s' m' c' x' => generate_event_list_depth d ir' s' m' c' x')
        ch cs s (m - 2) c x with hr
      show Option.map (fun e => e.event_type)
        (List.head? (List.flatten
          (r.1 ++ List.replicate (ch.length - r.1.length) []))) ≠
        some EventType.SUBSECTION_START
      refine headNotSub_flatten ?_
      intro sl hsl
      rcases List.mem_append.mp hsl with h' | h'
      · obtain ⟨chi, hchi, s', m', c', rfl⟩ :=
          childrenVisitGo_slots_mem _ x ch cs s (m - 2) c sl (by rw [hr] at h'; exact h')
        exact IH chi s' m' c' x
      · rw [List.eq_of_mem_replicate h']
        simp
    | SectionIR nm len tr pr cs ch =>
      simp only [generate_event_list_depth]
      try dsimp only
      unfold genSectionCoreGo
      dsimp only
      rcases htv : triggerEvents tr s len (m - 2) with ⟨tset, tclr, m2⟩
      dsimp only
      rcases hpc : prngSetupEvents pr s len m2 c with ⟨pse, pde, m3, c2⟩
      dsimp only
      rcases hcv : _children_eventsGo
        (fun ir' s' m' c' x' => generate_event_list_depth d ir' s' m' c' x')
        ch cs true s m3 c2 x with ⟨cev, c3⟩
      dsimp only
      simp
    | MatchIR nm len tr pr a b e f cs ch =>
      simp only [generate_event_list_depth]
      try dsimp only
      unfold genSectionCoreGo
      dsimp only
      rcases htv : triggerEvents tr s len (m - 2) with ⟨tset, tclr, m2⟩
      dsimp only
      rcases hpc : prngSetupEvents pr s len m2 c with ⟨pse, pde, m3, c2⟩
      dsimp only
      rcases hcv : _children_eventsGo
        (fun ir' s' m' c' x' => generate_event_list_depth d ir' s' m' c' x')
        ch cs true s m3 c2 x with ⟨cev, c3⟩
      dsimp only
      simp
    | CaseIR nm len tr pr st cs ch =>
      simp only [generate_event_list_depth]
      try dsimp only
      unfold genSectionCoreGo
      dsimp only
      rcases htv : triggerEvents tr s len (m - 2) with ⟨tset, tclr, m2⟩
      dsimp only
      rcases hpc : prngSetupEvents pr s len m2 c with ⟨pse, pde, m3, c2⟩
      dsimp only
      rcases hcv : _children_eventsGo
        (fun ir' s' m' c' x' => generate_event_list_depth d ir' s' m' c' x')
        ch cs true s m3 c2 x with ⟨cev, c3⟩
      dsimp only
      simp [setState]
    | EmptyBranchIR nm len st sigs =>
      simp only [generate_event_list_depth]
      try dsimp only
      split <;> simp
    | LoopIR nm len cf its cs ch =>
      simp only [generate_event_list_depth]
      try dsimp only
      simp
    | LoopIterationIR nm len it nr sw ps sh cs ch =>
      simp only [generate_event_list_depth]
      try dsimp only
      unfold genLoopIterationCoreGo
      dsimp only
      rcases hcv : _children_eventsGo
        (fun ir' s' m' c' x' => generate_event_list_depth d ir' s' m' c' x')
        ch cs true s
        ((if it == 0 then m - sw.length - 1 else m - sw.length) - 3) c x
        with ⟨cev, c1⟩
      dsimp only
      split <;> simp [setShadow]
    | PulseIR nm len off hp ia =>
      cases hp <;> cases ia <;> simp [generate_event_list_depth]
    | AcquireGroupIR nm len off =>
      simp [generate_event_list_depth]
    | OscillatorFrequencyStepIR nm len params oscs vals it =>
      simp only [generate_event_list_depth]
      try dsimp only
      rcases hz : (params.zip oscs).zip vals with _ | ⟨hd', tl'⟩ <;>
        simp [oscStepEvents]
    | PhaseResetIR nm len hw sw =>
      simp only [generate_event_list_depth]
      try dsimp only
      cases hw with
      | nil =>
        split <;> simp [hwPhaseResetEvents]
      | cons hd tl =>
        rcases h1 : hwPhaseResetEvents tl s (c + 1) with ⟨a, b⟩
        have h0 : hwPhaseResetEvents (hd :: tl) s c =
            (({ event_type := .RESET_HW_OSCILLATOR_PHASE, time := s,
                id := some c } : Event) :: a, b) := by
          unfold hwPhaseResetEvents
          rw [h1]
        rw [h0]
        split <;> simp
    | PrecompClearIR len =>
      simp [generate_event_list_depth]
    | ReserveIR len =>
      simp [generate_event_list_depth]

theorem childrenVisitGo_count (genf : GenFun) (x : Bool) :
    ∀ (children : List IR) (cs : List Int) (s m : Int) (c : Nat),
      ((childrenVisitGo genf children cs s m c x).1).length ≤
        children.length := by
  intro children
  induction children with
  | nil => intro cs s m c; cases cs <;> simp [childrenVisitGo]
  | cons hd tl IH =>
    intro cs s m c
    match cs with
    | [] => simp [childrenVisitGo]
    | st :: sts =>
      unfold childrenVisitGo
      split
      · simp
      · set ev := genf hd (s + st) m c x with hev
        set rec := childrenVisitGo genf tl sts s (m - (ev.1.length : Int))
          ev.2 x with hrec
        have h1 := IH sts s (m - (ev.1.length : Int)) ev.2
        rw [← hrec] at h1
        show (ev.1 :: rec.1).length ≤ (hd :: tl).length
        simp only [List.length_cons]
        omega

theorem wrapSlots_length (ch : List IR) :
    ∀ (sts : List Int) (slots : List (List Event)) (s : Int) (c : Nat),
      slots.length = ch.length →
      ((wrapSlots ch sts slots s c).1).length = ch.length := by
  induction ch with
  | nil =>
    intro sts slots s c h
    cases slots with
    | nil => simp [wrapSlots]
    | cons a b => simp at h
  | cons hd tl IH =>
    intro sts slots s c h
    match slots with
    | [] => simp at h
    | sl :: sls =>
      unfold wrapSlots
      dsimp only
      split
      · set r := wrapSlots tl sts.tail sls s (c + 2) with hr
        show (_ :: r.1).length = (hd :: tl).length
        simp only [List.length_cons]
        rw [hr]
        rw [IH sts.tail sls s (c + 2) (by simpa using h)]
      · set r := wrapSlots tl sts.tail sls s c with hr
        show (sl :: r.1).length = (hd :: tl).length
        simp only [List.length_cons]
        rw [hr]
        rw [IH sts.tail sls s c (by simpa using h)]

theorem wrapSlots_forall2 (ch : List IR) :
    ∀ (sts : List Int) (slots : List (List Event)) (s : Int) (c : Nat),
      slots.length = ch.length →
      (∀ sl ∈ slots, sl.head?.map (fun e => e.event_type) ≠
        some EventType.SUBSECTION_START) →
      List.Forall₂ (fun chi sl =>
        (isSectionIR chi = true →
          sl.head?.map (fun e => e.event_type) =
            some EventType.SUBSECTION_START ∧
          sl.getLast?.map (fun e => e.event_type) =
            some EventType.SUBSECTION_END) ∧
        (isSectionIR chi = false →
          sl.head?.map (fun e => e.event_type) ≠
            some EventType.SUBSECTION_START))
        ch (wrapSlots ch sts slots s c).1 := by
  induction ch with
  | nil =>
    intro sts slots s c h hh
    cases slots with
    | nil => exact List.Forall₂.nil
    | cons a b => simp at h
  | cons hd tl IH =>
    intro sts slots s c h hh
    match slots with
    | [] => simp at h
    | sl :: sls =>
      unfold wrapSlots
      dsimp only
      split
      · rename_i hsec
        set r := wrapSlots tl sts.tail sls s (c + 2) with hr
        refine List.Forall₂.cons ⟨fun _ => ⟨by simp, ?_⟩, fun hf => ?_⟩ ?_
        · show Option.map (fun e => e.event_type)
            (List.getLast?
              ((({ event_type := .SUBSECTION_START, time := sts.headD 0 + s,
                   id := some c, chain_element_id := some c } : Event) :: sl) ++
               [({ event_type := .SUBSECTION_END,
                   time := sts.headD 0 + irLength hd + s,
                   id := some (c + 1),
                   chain_element_id := some c } : Event)])) =
            some EventType.SUBSECTION_END
          rw [List.getLast?_append]
          rfl
        · rw [hsec] at hf
          cases hf
        · exact IH sts.tail sls s (c + 2) (by simpa using h)
            (fun t ht => hh t (List.mem_cons_of_mem _ ht))
      · rename_i hsec
        set r := wrapSlots tl sts.tail sls s c with hr
        refine List.Forall₂.cons
          ⟨fun ht => ?_, fun _ => hh sl (List.mem_cons_self _ _)⟩
          (IH sts.tail sls s c (by simpa using h)
            (fun t ht => hh t (List.mem_cons_of_mem _ ht)))
        rw [ht] at hsec
        exact absurd rfl hsec

theorem countP_head_of_forall2 {ch : List IR} {slots : List (List Event)}
    (h : List.Forall₂ (fun chi sl =>
      (isSectionIR chi = true →
        sl.head?.map (fun e => e.event_type) =
          some EventType.SUBSECTION_START ∧
        sl.getLast?.map (fun e => e.event_type) =
          some EventType.SUBSECTION_END) ∧
      (isSectionIR chi = false →
        sl.head?.map (fun e => e.event_type) ≠
          some EventType.SUBSECTION_START)) ch slots) :
    slots.countP (fun sl =>
      decide (sl.head?.map (fun e => e.event_type) =
        some EventType.SUBSECTION_START)) =
    ch.countP (fun chi => isSectionIR chi) := by
  induction h with
  | nil => rfl
  | @cons chi sl ch' slots' h1 h2 IH =>
    rw [List.countP_cons, List.countP_cons, IH]
    cases hc : isSectionIR chi with
    | true => rw [decide_eq_true ((h1.1 hc).1)]
    | false => rw [decide_eq_false (h1.2 hc)]

/-- C4: under any budget, a Section-style child pass produces exactly one
slot per child; `SectionIR`-typed children (and only those) have their slot
wrapped in SUBSECTION_START/SUBSECTION_END, empty truncation placeholders
included, so the wrapper-pair count equals the count of Section-typed
children. -/
theorem c4_theorem (d : Nat) (children : List IR) (cs : List Int)
    (s m : Int) (c : Nat) (x : Bool) :
    ((_children_eventsGo
      (fun ir' s' m' c' x' => generate_event_list_depth d ir' s' m' c' x')
      children cs true s m c x).1).length = children.length ∧
    List.Forall₂ (fun chi sl =>
      (isSectionIR chi = true →
        sl.head?.map (fun e => e.event_type) =
          some EventType.SUBSECTION_START ∧
        sl.getLast?.map (fun e => e.event_type) =
          some EventType.SUBSECTION_END) ∧
      (isSectionIR chi = false →
        sl.head?.map (fun e => e.event_type) ≠
          some EventType.SUBSECTION_START))
      children
      ((_children_eventsGo
        (fun ir' s' m' c' x' => generate_event_list_depth d ir' s' m' c' x')
        children cs true s m c x).1) ∧
    ((_children_eventsGo
      (fun ir' s' m' c' x' => generate_event_list_depth d ir' s' m' c' x')
      children cs true s m c x).1).countP (fun sl =>
        decide (sl.head?.map (fun e => e.event_type) =
          some EventType.SUBSECTION_START)) =
      children.countP (fun chi => isSectionIR chi) := by
  unfold _children_eventsGo
  simp only [if_true]
  set m2 := m - 2 * (children.length : Int) with hm2
  set r := childrenVisitGo
    (fun ir' s' m' c' x' => generate_event_list_depth d ir' s' m' c' x')
    children cs s m2 c x with hr
  set slots := r.1 ++ List.replicate (children.length - r.1.length) []
    with hsl
  have hcount : r.1.length ≤ children.length := by
    rw [hr]
    exact childrenVisitGo_count _ x children cs s m2 c
  have hlen : slots.length = children.length := by
    rw [hsl]
    simp only [List.length_append, List.length_replicate]
    omega
  have hhead : ∀ sl ∈ slots, sl.head?.map (fun e => e.event_type) ≠
      some EventType.SUBSECTION_START := by
    intro sl hmem
    rw [hsl] at hmem
    rcases List.mem_append.mp hmem with h' | h'
    · obtain ⟨chi, hchi, s', m', c', rfl⟩ :=
        childrenVisitGo_slots_mem _ x children cs s m2 c sl
          (by rw [hr] at h'; exact h')
      exact gen_depth_head d chi s' m' c' x
    · rw [List.eq_of_mem_replicate h']
      simp
  have hf2 := wrapSlots_forall2 children cs slots s r.2 hlen hhead
  refine ⟨?_, ?_, ?_⟩
  · show ((wrapSlots children cs slots s r.2).1).length = children.length
    exact wrapSlots_length children cs slots s r.2 hlen
  · exact hf2
  · exact countP_head_of_forall2 hf2

/-- C8 counterexample: under budget 9, an unrolled 3-child Loop generated by
the actual code (charging 3 structural events, line 282) visits all three
children, while the spec's six-event charge would truncate after two: the
two emissions differ. -/
theorem c8_cex :
    (generate_event_list
      (.LoopIR 0 30 false 3 [0, 10, 20]
        [.PulseIR 0 10 0 true false, .PulseIR 1 10 0 true false,
         .PulseIR 2 10 0 true false]) 0 9 0 false).1.length ≠
    (loopEmissionChargingSix 0 30 false 3 [0, 10, 20]
      [.PulseIR 0 10 0 true false, .PulseIR 1 10 0 true false,
       .PulseIR 2 10 0 true false] 0 9 0 false).1.length := by
  decide

/-- C8 amended: the Loop emission is bracketed, in order, by SECTION_START
and LOOP_START (the latter carrying the iteration count and the compressed
flag), then the iteration events, then LOOP_END and SECTION_END — but only
three budget units (not six) are subtracted before descending into the
children. -/
theorem c8_amended (d : Nat) (nm : Nat) (len : Int) (cf : Bool) (its : Nat)
    (cs : List Int) (ch : List IR) (s m : Int) (c : Nat) (x : Bool) :
    ∃ (inner : List Event) (c1 : Nat),
      generate_event_list_depth (d + 1) (.LoopIR nm len cf its cs ch)
        s m c x =
      ({ event_type := .SECTION_START, time := s, id := some c1,
         chain_element_id := some c1, nesting_level := some 0 } ::
       { event_type := .LOOP_START, time := s, iterations := some its,
         compressed := some cf, chain_element_id := some c1,
         nesting_level := some 0 } ::
       (inner ++
        [{ event_type := .LOOP_END, time := s + len,
           chain_element_id := some c1, nesting_level := some 0 },
         { event_type := .SECTION_END, time := s + len,
           chain_element_id := some c1, nesting_level := some 0 }]),
       c1 + 1) ∧
      inner =
        (((if !cf then
            _children_eventsGo (fun ir' s' m' c' x' =>
              generate_event_list_depth d ir' s' m' c' x') ch cs false s
              (m - 3) c x
          else
            genLoopCompressedSlotsGo (fun ir' s' m' c' x' =>
              generate_event_list_depth d ir' s' m' c' x') ch cs its s
              (m - 3) c x).1).map (List.map bumpNesting)).flatten ∧
      c1 =
        (if !cf then
            _children_eventsGo (fun ir' s' m' c' x' =>
              generate_event_list_depth d ir' s' m' c' x') ch cs false s
              (m - 3) c x
          else
            genLoopCompressedSlotsGo (fun ir' s' m' c' x' =>
              generate_event_list_depth d ir' s' m' c' x') ch cs its s
              (m - 3) c x).2 := by
  cases cf with
  | false => exact ⟨_, _, rfl, rfl, rfl⟩
  | true => exact ⟨_, _, rfl, rfl, rfl⟩

theorem genLoopIterationCoreGo_head (genf : GenFun) (pn : Nat) (plen : Int)
    (idx nr : Nat) (sweeps : List Nat) (ps : Option Nat) (cs : List Int)
    (ch : List IR) (s' m' : Int) (c' : Nat) (x : Bool) :
    ((genLoopIterationCoreGo genf pn plen idx nr sweeps ps true cs ch
      s' m' c' x).1).head? =
    some (setShadow
      { event_type := .LOOP_STEP_START, time := s',
        nesting_level := some 0 }) := by
  unfold genLoopIterationCoreGo
  dsimp only
  rcases hcv : _children_eventsGo genf ch cs true s'
      ((if idx == 0 then m' - sweeps.length - 1 else m' - sweeps.length) - 3)
      c' x with ⟨cev, c1⟩
  dsimp only
  simp

theorem genLoopIterationCoreGo_shadow (genf : GenFun) (pn : Nat)
    (plen : Int) (idx nr : Nat) (sweeps : List Nat) (ps : Option Nat)
    (cs : List Int) (ch : List IR) (s' m' : Int) (c' : Nat) (x : Bool) :
    ∀ e ∈ (genLoopIterationCoreGo genf pn plen idx nr sweeps ps true cs ch
      s' m' c' x).1, e.shadow = true := by
  unfold genLoopIterationCoreGo
  dsimp only
  rcases hcv : _children_eventsGo genf ch cs true s'
      ((if idx == 0 then m' - sweeps.length - 1 else m' - sweeps.length) - 3)
      c' x with ⟨cev, c1⟩
  dsimp only
  intro e he
  simp only [if_true] at he
  obtain ⟨f, hf, rfl⟩ := List.mem_map.mp he
  rfl

theorem shadowIterationsGo_full (genf : GenFun) (pn : Nat) (plen : Int)
    (nr : Nat) (sweeps : List Nat) (ps : Option Nat) (cs : List Int)
    (ch : List IR)
    (hlen : ∀ child ∈ ch, ∀ s' m' c',
      ((genf child s' m' c' true).1).length ≤ ubEvents child) :
    ∀ (r idx : Nat) (prevLen istart m : Int) (c : Nat),
      prevLen ≤ ((5 + sweeps.length + ubList ch + 2 * ch.length : Nat) : Int) →
      (r : Int) * ((5 + sweeps.length + ubList ch + 2 * ch.length : Nat) : Int)
        + prevLen < m →
      ((shadowIterationsGo genf pn plen nr sweeps ps cs ch r idx prevLen
        istart m c true).1).length = r ∧
      (∀ k sl, ((shadowIterationsGo genf pn plen nr sweeps ps cs ch r idx
          prevLen istart m c true).1).get? k = some sl →
        (∀ e ∈ sl, e.shadow = true) ∧
        sl.head? = some (setShadow
          { event_type := .LOOP_STEP_START,
            time := istart + ((k : Int) + 1) * plen,
            nesting_level := some 0 })) := by
  intro r
  induction r with
  | zero =>
    intro idx prevLen istart m c hprev hm
    refine ⟨rfl, ?_⟩
    intro k sl hsl
    simp [shadowIterationsGo] at hsl
  | succ r IH =>
    intro idx prevLen istart m c hprev hm
    unfold shadowIterationsGo
    dsimp only
    have hU : (0 : Int) ≤
        ((5 + sweeps.length + ubList ch + 2 * ch.length : Nat) : Int) := by
      positivity
    have hmpos : ¬ (m - prevLen ≤ 0) := by
      push_cast at hm ⊢
      nlinarith [Int.natCast_nonneg r]
    rw [if_neg hmpos]
    set ev := genLoopIterationCoreGo genf pn plen idx nr sweeps ps true cs ch
      (istart + plen) (m - prevLen) c true with hev
    have hevlen : ev.1.length ≤
        (5 + sweeps.length + ubList ch + 2 * ch.length : Nat) := by
      rw [hev]
      exact genLoopIterationCoreGo_len genf pn plen idx nr sweeps ps true cs
        ch (istart + plen) (m - prevLen) c true hlen
    have hIH := IH (idx + 1) (ev.1.length : Int) (istart + plen)
      (m - prevLen) ev.2 (by exact_mod_cast hevlen)
      (by push_cast at hm ⊢; push_cast at hevlen; nlinarith)
    set rec := shadowIterationsGo genf pn plen nr sweeps ps cs ch r (idx + 1)
      (ev.1.length : Int) (istart + plen) (m - prevLen) ev.2 true with hrec
    constructor
    · show (ev.1 :: rec.1).length = r + 1
      simp only [List.length_cons, hIH.1]
    · intro k sl hsl
      match k with
      | 0 =>
        have hsl0 : sl = ev.1 := by
          have : (ev.1 :: rec.1).get? 0 = some sl := hsl
          simp only [List.get?_cons_zero, Option.some.injEq] at this
          exact this.symm
        subst hsl0
        refine ⟨?_, ?_⟩
        · rw [hev]
          exact genLoopIterationCoreGo_shadow genf pn plen idx nr sweeps ps
            cs ch (istart + plen) (m - prevLen) c true
        · rw [hev, genLoopIterationCoreGo_head]
          norm_num
      | k + 1 =>
        have hsl' : rec.1.get? k = some sl := by
          have : (ev.1 :: rec.1).get? (k + 1) = some sl := hsl
          simpa using this
        obtain ⟨hsh, hhd⟩ := hIH.2 k sl hsl'
        refine ⟨hsh, ?_⟩
        rw [hhd]
        have : istart + plen + ((k : Int) + 1) * plen =
            istart + (((k + 1 : Nat) : Int) + 1) * plen := by
          push_cast
          ring
        rw [this]

/-- C7: a compressed Loop prototype pass under `expand_loops = true` and a
budget that can never be exhausted emits exactly `iterations` iteration
slots: the (compressed-tagged) prototype followed by `iterations - 1` shadow
copies, the k-th shadow opening with a LOOP_STEP_START at
`start + (k + 1) * length` (one prototype length after its predecessor) and
carrying `shadow = true` on every event. -/
theorem c7_theorem (d : Nat) (pn : Nat) (plen : Int) (pit pnum : Nat)
    (psw : List Nat) (pps : Option Nat) (psh : Bool) (pcs : List Int)
    (pch : List IR) (chrest : List IR) (st0 : Int) (csrest : List Int)
    (iterations : Nat) (s m : Int) (c : Nat)
    (hits : 1 ≤ iterations)
    (hm : (iterations : Int) *
      ((ubEvents (.LoopIterationIR pn plen pit pnum psw pps psh pcs pch)
        : Nat) : Int) < m) :
    ((genLoopCompressedSlotsGo
      (fun ir' s' m' c' x' => generate_event_list_depth d ir' s' m' c' x')
      ((.LoopIterationIR pn plen pit pnum psw pps psh pcs pch) :: chrest)
      (st0 :: csrest) iterations s m c true).1).length = iterations ∧
    ((genLoopCompressedSlotsGo
      (fun ir' s' m' c' x' => generate_event_list_depth d ir' s' m' c' x')
      ((.LoopIterationIR pn plen pit pnum psw pps psh pcs pch) :: chrest)
      (st0 :: csrest) iterations s m c true).1).get? 0 =
      some (setLastCompressed
        ((generate_event_list_depth d
          (.LoopIterationIR pn plen pit pnum psw pps psh pcs pch)
          (s + st0) m c true).1)) ∧
    (∀ k sl, ((genLoopCompressedSlotsGo
      (fun ir' s' m' c' x' => generate_event_list_depth d ir' s' m' c' x')
      ((.LoopIterationIR pn plen pit pnum psw pps psh pcs pch) :: chrest)
      (st0 :: csrest) iterations s m c true).1).get? (k + 1) = some sl →
      (∀ e ∈ sl, e.shadow = true) ∧
      sl.head? = some (setShadow
        { event_type := .LOOP_STEP_START,
          time := s + ((k : Int) + 1) * plen,
          nesting_level := some 0 })) := by
  unfold genLoopCompressedSlotsGo
  dsimp only
  set ev := generate_event_list_depth d
    (.LoopIterationIR pn plen pit pnum psw pps psh pcs pch)
    (s + st0) m c true with hev
  unfold genShadowExpansionGo
  dsimp only
  set U := ((5 + psw.length + ubList pch + 2 * pch.length : Nat) : Int)
    with hU
  have hUnn : (0 : Int) ≤ U := by
    rw [hU]
    positivity
  have hmU : (iterations : Int) * U < m := by
    rw [hU]
    simpa [ubEvents] using hm
  have hprev : ((setLastCompressed ev.1).length : Int) ≤ U := by
    rw [setLastCompressed_len, hU]
    have := gen_depth_len d
      (.LoopIterationIR pn plen pit pnum psw pps psh pcs pch)
      (s + st0) m c true
    simp only [ubEvents] at this
    exact_mod_cast this
  have hbud : ((iterations - 1 : Nat) : Int) * U +
      ((setLastCompressed ev.1).length : Int) < m := by
    rw [Int.ofNat_sub hits]
    push_cast
    nlinarith
  have hfull := shadowIterationsGo_full
    (fun ir' s' m' c' x' => generate_event_list_depth d ir' s' m' c' x')
    pn plen pnum psw pps pcs pch
    (fun child hm' s' m' c' => gen_depth_len d child s' m' c' true)
    (iterations - 1) 1 ((setLastCompressed ev.1).length : Int) s m ev.2
    hprev hbud
  set shadows := shadowIterationsGo
    (fun ir' s' m' c' x' => generate_event_list_depth d ir' s' m' c' x')
    pn plen pnum psw pps pcs pch (iterations - 1) 1
    ((setLastCompressed ev.1).length : Int) s m ev.2 true with hsh
  refine ⟨?_, ?_, ?_⟩
  · show (setLastCompressed ev.1 :: shadows.1).length = iterations
    simp only [List.length_cons, hfull.1]
    omega
  · show (setLastCompressed ev.1 :: shadows.1).get? 0 =
      some (setLastCompressed ev.1)
    rfl
  · intro k sl hsl
    have hsl' : shadows.1.get? k = some sl := by
      have : (setLastCompressed ev.1 :: shadows.1).get? (k + 1) = some sl :=
        hsl
      simpa using this
    exact hfull.2 k sl hsl'

/-- C7 witness: a 2-iteration compressed loop over a pulse prototype under
an ample budget yields exactly 2 slots. -/
theorem c7_witness :
    1 ≤ 2 ∧
    ((genLoopCompressedSlotsGo
      (fun ir' s' m' c' x' => generate_event_list_depth 2 ir' s' m' c' x')
      ((.LoopIterationIR 0 10 0 1 [] none false [0]
        [.PulseIR 0 10 0 true false]) :: [])
      (0 :: []) 2 0 100 0 true).1).length = 2 :=
  ⟨by decide, (c7_theorem 2 0 10 0 1 [] none false [0]
    [.PulseIR 0 10 0 true false] [] 0 [] 2 0 100 0 (by decide)
    (by decide)).1⟩

/-- C10 witness: the amended theorem at one delay list and grid. -/
theorem c10_witness :
    (0 : Int) < 8 ∧ (8 : Int) ∣ _get_total_rounded_delay_samples [some 12] 1 8 :=
  ⟨by norm_num, (c10_amended [some 12] 1 8 (by norm_num)).1⟩

/-- C5 witness: the amended theorem at a concrete signal list. -/
theorem c5_witness :
    (5 : Int) ≤ _compute_start_with_latency 1 2 0
      [{ latencyAt := fun _ => 10, sequencer_rate := 1/2,
         start_delay := 0, delay_signal := 0 }] 5 :=
  (c5_amended 1 2 0
    [{ latencyAt := fun _ => 10, sequencer_rate := 1/2,
       start_delay := 0, delay_signal := 0 }]
    [{ latencyAt := fun _ => 10, sequencer_rate := 1/2,
       start_delay := 0, delay_signal := 0 }] 5
    (by norm_num) (by norm_num)
    (by intro sg hsg
        rw [List.mem_singleton.mp hsg]
        norm_num)
    (List.forall₂_same.mpr (by
      intro sg hsg
      exact ⟨rfl, rfl, rfl, le_rfl⟩))).1
